import Mathlib

/-!
# Verification of the spotter-backend trip-planning engine

Shallow embedding of `src/trips/services.py`: the geocoder fallback,
the HOS stop planner (`plan_route`) and the duty-log generator
(`generate_eld_logs`).  Python floats are modelled as rationals, the
two simulation loops as fuel-indexed recursions whose fuel is proved
sufficient.
-/

namespace Spotter

/-- Python `%` on floats (used only with positive moduli): `x % y = x - y*⌊x/y⌋`. -/
def pmod (x y : ℚ) : ℚ := x - y * (⌊x / y⌋ : ℤ)

/-- Python `int(...)` truncation toward zero. -/
def pyInt (q : ℚ) : ℤ := if q < 0 then -⌊-q⌋ else ⌊q⌋

/-- Python `round(...)` — round half to even (banker's rounding). -/
def rndEven (q : ℚ) : ℤ :=
  let f : ℤ := ⌊q⌋
  let r : ℚ := q - (f : ℚ)
  if r < 1/2 then f
  else if 1/2 < r then f + 1
  else if f % 2 = 0 then f else f + 1

/-- `⌈q⌉` clamped to a natural number. -/
def ceilNat (q : ℚ) : ℕ := (⌈q⌉).toNat

/-- `%02d` formatting. -/
def pad2 (n : ℤ) : String := if 0 ≤ n ∧ n < 10 then "0" ++ toString n else toString n

/-- `_format_time` of `services.py`: `HH:MM` label from a fractional hour count. -/
def formatTime (hours : ℚ) : String :=
  pad2 ⌊hours⌋ ++ ":" ++ pad2 (rndEven ((hours - (⌊hours⌋ : ℤ)) * 60))

/-! ## Geocoder (`geocode`, fallback path) -/

structure Coordinate where
  lat : ℚ
  lng : ℚ
  name : String
deriving DecidableEq, Repr

/-- The fixed eight-city fallback table of `geocode` (decimal coordinates
written as explicit rationals: e.g. 40.7128 is 407128/10000). -/
def mocks : List (String × ℚ × ℚ) :=
  [("new york", (407128/10000, -740060/10000)),
   ("los angeles", (340522/10000, -1182437/10000)),
   ("chicago", (418781/10000, -876298/10000)),
   ("dallas", (327767/10000, -967970/10000)),
   ("miami", (257617/10000, -801918/10000)),
   ("phoenix", (334484/10000, -1120740/10000)),
   ("atlanta", (337490/10000, -843880/10000)),
   ("denver", (397392/10000, -1049903/10000))]

/-- `location.lower().split(',')[0].strip()`: lower-case the string, keep the
characters before the first comma, and strip surrounding whitespace. -/
def pyKey (location : String) : String :=
  let lowered := location.data.map Char.toLower
  let firstSeg := lowered.takeWhile (fun c => c ≠ ',')
  ⟨((firstSeg.dropWhile Char.isWhitespace).reverse.dropWhile Char.isWhitespace).reverse⟩

/-- The fallback branch of `geocode`: taken on any external-lookup failure.
Key is the lower-cased, first-comma-segment, stripped input. -/
def geocodeFallback (location : String) : Coordinate :=
  match mocks.lookup (pyKey location) with
  | some p => ⟨p.1, p.2, location⟩
  | none => ⟨407128/10000, -740060/10000, location⟩

/-- Haversine great-circle distance is irrational-valued (sin/cos/atan2);
the planner core below takes the resulting `distance`/`duration` as inputs,
which is where every claim about the planner is stated. -/
def avgSpeed : ℚ := 50

/-! ## HOS stop planner (`plan_route`, lines 86–171) -/

structure Stop where
  type : String
  name : String
  location : String
  duration : ℚ
  milesFromStart : ℤ
  time : String
deriving DecidableEq, Repr

/-- The pure inputs of the planning loop: total distance, distance to the
pickup point, and the two labels used by `location_at`. -/
structure PlanCfg where
  total : ℚ
  dtp : ℚ
  currentName : String
  pickupName : String
deriving DecidableEq, Repr

/-- `location_at` of `plan_route`. -/
def locationAt (cfg : PlanCfg) (miles : ℚ) : String :=
  if miles ≤ cfg.dtp then toString (pyInt miles) ++ " mi from " ++ cfg.currentName
  else toString (pyInt (miles - cfg.dtp)) ++ " mi from " ++ cfg.pickupName

structure PlanState where
  stops : List Stop
  m : ℚ
  h : ℚ
deriving DecidableEq, Repr

/-- Lines 101–109: the 30-minute-break emission at the top of the loop body. -/
def planBreak (cfg : PlanCfg) (s : PlanState) : PlanState :=
  if 0 < s.h ∧ pmod s.h 8 < 1/2 then
    { s with stops := s.stops ++ [⟨"30-min break", "Rest Area (30-min break)",
        locationAt cfg s.m, 1/2, pyInt s.m, formatTime s.h⟩] }
  else s

/-- Line 100: `min(11 - hours%11, 14 - hours%14)`. -/
def planShift (h : ℚ) : ℚ := min (11 - pmod h 11) (14 - pmod h 14)

/-- Line 110: the miles driven this shift. -/
def planDrive (cfg : PlanCfg) (s : PlanState) : ℚ :=
  min (min (planShift s.h * avgSpeed) (cfg.total - s.m)) 550

/-- Lines 110–112: advance miles and hours. -/
def planAdvance (cfg : PlanCfg) (s : PlanState) : PlanState :=
  { s with m := s.m + planDrive cfg s, h := s.h + planDrive cfg s / avgSpeed }

/-- Lines 114–123: fuel stop when a 1000-mile boundary is crossed.
`mPrev` is `current_miles - drive_miles`. -/
def planFuelStage (cfg : PlanCfg) (mPrev : ℚ) (s : PlanState) : PlanState :=
  if ⌊mPrev / 1000⌋ < ⌊s.m / 1000⌋ then
    { s with stops := s.stops ++ [⟨"fuel", "Fuel Stop", locationAt cfg s.m,
        1/2, pyInt s.m, formatTime s.h⟩], h := s.h + 1/2 }
  else s

/-- Lines 125–134: pickup stop when the pickup distance is crossed. -/
def planPickStage (cfg : PlanCfg) (mPrev : ℚ) (s : PlanState) : PlanState :=
  if cfg.dtp ≤ s.m ∧ mPrev < cfg.dtp then
    { s with stops := s.stops ++ [⟨"pickup", cfg.pickupName, cfg.pickupName,
        1, pyInt cfg.dtp, formatTime s.h⟩], h := s.h + 1 }
  else s

/-- Lines 136–146: overnight rest and `hours_worked` reset. -/
def planRestStage (cfg : PlanCfg) (s : PlanState) : PlanState :=
  if (11 ≤ s.h ∨ 27/2 ≤ pmod s.h 14) ∧ s.m < cfg.total then
    { s with stops := s.stops ++ [⟨"rest", "Overnight Rest (10 hours)",
        locationAt cfg s.m, 10, pyInt s.m, formatTime s.h⟩], h := 0 }
  else s

/-- One iteration of the `while current_miles < total_distance` loop. -/
def planStep (cfg : PlanCfg) (s : PlanState) : PlanState :=
  planRestStage cfg (planPickStage cfg s.m (planFuelStage cfg s.m
    (planAdvance cfg (planBreak cfg s))))

/-- The planning loop, fuel-indexed. -/
def planLoop (cfg : PlanCfg) : ℕ → PlanState → PlanState
  | 0, s => s
  | n + 1, s => if s.m < cfg.total then planLoop cfg n (planStep cfg s) else s

/-- Fuel that provably suffices for `planLoop`. -/
def planFuel (cfg : PlanCfg) : ℕ := ceilNat (cfg.total / 550) + 1

/-- The full `rest_stops` sequence of `plan_route`: the loop output followed
by the unconditional dropoff stop. -/
def planStops (cfg : PlanCfg) (dropoffName : String) (duration : ℚ) : List Stop :=
  (planLoop cfg (planFuel cfg) ⟨[], 0, 0⟩).stops ++
    [⟨"dropoff", dropoffName, dropoffName, 1, pyInt cfg.total, formatTime duration⟩]

/-- The `route_data` dictionary assembled at the end of `plan_route`. -/
structure RouteData where
  totalDistance : ℤ
  totalDrivingTime : ℚ
  estimatedDays : ℤ
  restStops : List Stop
  current : Coordinate
  pickup : Coordinate
  dropoff : Coordinate
  routeGeometry : List Coordinate
deriving DecidableEq, Repr

/-- The pure core of `plan_route`, given the geocoded coordinates and the
distance/duration/leg data obtained from the router (or its fallback). -/
def plan_route_core (currentC pickupC dropoffC : Coordinate) (geometry : List Coordinate)
    (distance duration dtp : ℚ) : RouteData :=
  let cfg : PlanCfg := ⟨distance, dtp, currentC.name, pickupC.name⟩
  { totalDistance := rndEven distance
    totalDrivingTime := (rndEven (duration * 10) : ℚ) / 10
    estimatedDays := ⌈duration / 11⌉ + ⌊duration / 11⌋
    restStops := planStops cfg dropoffC.name duration
    current := currentC
    pickup := pickupC
    dropoff := dropoffC
    routeGeometry := geometry }

/-! ## Duty log generator (`generate_eld_logs`, lines 180–320) -/

structure Seg where
  status : String
  startHour : ℚ
  duration : ℚ
  location : String
deriving DecidableEq, Repr

structure Hours where
  off : ℚ
  sleeper : ℚ
  driving : ℚ
  onDuty : ℚ
deriving DecidableEq, Repr

structure DailyLog where
  date : ℤ
  dayNumber : ℕ
  hours : Hours
  segments : List Seg
  remarks : List String
  totalMiles : ℤ
deriving DecidableEq, Repr

structure GenState where
  logs : List DailyLog
  ch : ℚ
  day : ℕ
  segs : List Seg
  dh : Hours
  tmd : ℚ
  rem : ℚ
  rks : List String
  idx : ℕ
deriving DecidableEq, Repr

/-- The per-status accumulator update inside `add_segment`. -/
def addHours (dh : Hours) (status : String) (d : ℚ) : Hours :=
  if status = "off-duty" then { dh with off := dh.off + d }
  else if status = "sleeper" then { dh with sleeper := dh.sleeper + d }
  else if status = "driving" then { dh with driving := dh.driving + d }
  else { dh with onDuty := dh.onDuty + d }

/-- `add_segment`: append a duty segment, truncating at hour 24
(`actual_duration` is written out as `24 - s.ch`). -/
def addSeg (s : GenState) (status : String) (dur : ℚ) (loc : String) : GenState :=
  if 24 < s.ch + dur then
    if 0 < 24 - s.ch then
      { s with segs := s.segs ++ [⟨status, s.ch, 24 - s.ch, loc⟩],
               dh := addHours s.dh status (24 - s.ch), ch := 24 }
    else { s with ch := 24 }
  else
    { s with segs := s.segs ++ [⟨status, s.ch, dur, loc⟩],
             dh := addHours s.dh status dur, ch := s.ch + dur }

/-- `save_day`: close the current day into a DailyLog and reset the day state. -/
def saveDay (base : ℤ) (s : GenState) : GenState :=
  { s with
    logs := s.logs ++ [⟨base + (s.day : ℤ) - 1, s.day, s.dh, s.segs, s.rks, rndEven s.tmd⟩],
    day := s.day + 1, segs := [], dh := ⟨0, 0, 0, 0⟩, tmd := 0, ch := 0 }

/-- The `if current_hour >= 23.5` end-of-iteration rollover (lines 302–305). -/
def dayRoll (base : ℤ) (s : GenState) : GenState :=
  if 47/2 ≤ s.ch then
    addSeg (saveDay base (addSeg s "off-duty" (24 - s.ch) "")) "sleeper" 10 "Rest area"
  else s

/-- Driving-segment insertion shared by the stop branches: add the segment
then update day mileage and remaining distance by the *untruncated* amount. -/
def driveSeg (s : GenState) (drive : ℚ) (loc : String) : GenState :=
  if 0 < drive then
    { addSeg s "driving" drive loc with
      tmd := (addSeg s "driving" drive loc).tmd + drive * avgSpeed,
      rem := (addSeg s "driving" drive loc).rem - drive * avgSpeed }
  else s

/-- `remarks.append(...)`. -/
def addRemark (s : GenState) (r : String) : GenState := { s with rks := s.rks ++ [r] }

/-- `if current_hour < 24: add_segment("sleeper", 24 - current_hour, "Rest area")`. -/
def fillSleep (s : GenState) : GenState :=
  if s.ch < 24 then addSeg s "sleeper" (24 - s.ch) "Rest area" else s

/-- Lines 252–258: forced day rollover when the daily driving or on-duty
caps are reached. -/
def hosRoll (base : ℤ) (s : GenState) : GenState :=
  addSeg (addSeg (saveDay base (fillSleep (addSeg s "on-duty" (1/2) "Post-trip inspection")))
    "sleeper" 10 "Rest area") "on-duty" (1/2) "Pre-trip inspection"

/-- The driving-time allowance before a pickup/dropoff stop (line 265). -/
def pickupDrive (s : GenState) : ℚ :=
  min (min (s.rem / avgSpeed) (11 - s.dh.driving)) (14 - (s.dh.driving + s.dh.onDuty))

/-- Lines 261–292: processing of one stop (the state already has the
incremented stop index). -/
def stopBranch (base : ℤ) (stop : Stop) (s0 : GenState) : GenState :=
  if stop.type = "pickup" ∨ stop.type = "dropoff" then
    addRemark (addSeg (driveSeg s0 (pickupDrive s0) ("En route to " ++ stop.location)) "on-duty" 1
        ((if stop.type = "pickup" then "Pickup at " else "Delivery at ") ++ stop.location))
      ((if stop.type = "pickup" then "Pickup: " else "Delivery: ") ++ stop.location)
  else if stop.type = "fuel" then
    addRemark (addSeg (driveSeg s0 (min 2 (11 - s0.dh.driving)) "") "on-duty" (1/2) "Fuel stop")
      "Fueling"
  else if stop.type = "30-min break" then
    addRemark (addSeg (driveSeg s0 (min (min 3 (11 - s0.dh.driving)) (8 - pmod s0.dh.driving 8)) "")
        "off-duty" (1/2) "30-min break")
      "30-minute break"
  else if stop.type = "rest" then
    addSeg (saveDay base (fillSleep s0)) "sleeper" 10 "Rest area"
  else s0

/-- The driving-time allowance of the stop-less branch (line 294). -/
def elseDrive (s : GenState) : ℚ :=
  min (min (s.rem / avgSpeed) (11 - s.dh.driving)) (14 - (s.dh.driving + s.dh.onDuty) - 1/2)

inductive GenRes where
  | cont (s : GenState)
  | brk (s : GenState)
deriving DecidableEq, Repr

/-- One iteration of the `while remaining_distance > 0 or stop_index < len(stops)`
loop of `generate_eld_logs`. -/
def genStep (base : ℤ) (stops : List Stop) (s : GenState) : GenRes :=
  if 11 ≤ s.dh.driving ∨ 14 ≤ s.dh.driving + s.dh.onDuty then
    .cont (hosRoll base s)
  else if h : s.idx < stops.length then
    .cont (dayRoll base (stopBranch base (stops.get ⟨s.idx, h⟩) { s with idx := s.idx + 1 }))
  else if 0 < elseDrive s then
    .cont (dayRoll base (driveSeg s (elseDrive s) ""))
  else
    .brk s

/-- The generator loop, fuel-indexed; `none` on fuel exhaustion. -/
def genLoop (base : ℤ) (stops : List Stop) : ℕ → GenState → Option GenState
  | 0, _ => none
  | n + 1, s =>
    if 0 < s.rem ∨ s.idx < stops.length then
      match genStep base stops s with
      | .cont s1 => genLoop base stops n s1
      | .brk s1 => some s1
    else some s

/-- `if current_hour < 24: add_segment("off-duty", 24 - current_hour, "End of day")`. -/
def fillOff (s : GenState) : GenState :=
  if s.ch < 24 then addSeg s "off-duty" (24 - s.ch) "End of day" else s

/-- Lines 307–318: close the final day. -/
def genFinish (base : ℤ) (s : GenState) : List DailyLog :=
  if s.segs.isEmpty then s.logs
  else
    (saveDay base (addRemark (fillOff
      (if s.ch ≤ 47/2 then addSeg s "on-duty" (1/2) "Post-trip inspection" else s))
      "Trip completed")).logs

/-- Lines 181–249: the initial state (8h sleeper, pre-trip inspection). -/
def genInit (route : RouteData) : GenState :=
  addSeg (addRemark (addSeg ⟨[], 8, 1, [], ⟨0, 0, 0, 0⟩, 0, (route.totalDistance : ℚ), [], 0⟩
    "sleeper" 8 "Home terminal") "Started trip after 10-hour rest") "on-duty" (1/2)
    "Pre-trip inspection"

/-- Fuel that provably suffices for `genLoop`. -/
def genFuel (route : RouteData) : ℕ :=
  4 * route.restStops.length + 4 * ceilNat ((route.totalDistance : ℚ) / 550) + 2

/-- The trip input dictionary; `generate_eld_logs` receives it but never reads it. -/
structure TripData where
  driverName : String
  currentLocation : String
  pickupLocation : String
  dropoffLocation : String
  currentCycleUsed : ℚ
deriving DecidableEq, Repr

set_option linter.unusedVariables false in
/-- `generate_eld_logs(trip_data, route_data)`; `base` stands for `date.today()`.
The `tripData` parameter is received but, exactly as in the source, never read. -/
def generate_eld_logs (tripData : TripData) (route : RouteData) (base : ℤ) : List DailyLog :=
  let init := genInit route
  let fin := (genLoop base route.restStops (genFuel route) init).getD init
  genFinish base fin

/-! ## Basic helper lemmas -/

theorem pmod_nonneg (x : ℚ) {y : ℚ} (hy : 0 < y) : 0 ≤ pmod x y := by
  unfold pmod
  have h : ((⌊x / y⌋ : ℤ) : ℚ) ≤ x / y := Int.floor_le (x / y)
  have h2 : y * ((⌊x / y⌋ : ℤ) : ℚ) ≤ x := by
    calc y * ((⌊x / y⌋ : ℤ) : ℚ) ≤ y * (x / y) := mul_le_mul_of_nonneg_left h hy.le
      _ = x := by field_simp
  linarith

theorem pmod_lt (x : ℚ) {y : ℚ} (hy : 0 < y) : pmod x y < y := by
  unfold pmod
  have h : x / y < ((⌊x / y⌋ : ℤ) : ℚ) + 1 := Int.lt_floor_add_one (x / y)
  have h2 : x < y * (((⌊x / y⌋ : ℤ) : ℚ) + 1) := by
    calc x = y * (x / y) := by field_simp
      _ < y * (((⌊x / y⌋ : ℤ) : ℚ) + 1) := mul_lt_mul_of_pos_left h hy
  have h3 : y * (((⌊x / y⌋ : ℤ) : ℚ) + 1) = y * ((⌊x / y⌋ : ℤ) : ℚ) + y := by ring
  linarith

theorem pmod_zero (y : ℚ) : pmod 0 y = 0 := by simp [pmod]

theorem ceilNat_mono {a b : ℚ} (h : a ≤ b) : ceilNat a ≤ ceilNat b :=
  Int.toNat_le_toNat (Int.ceil_le_ceil h)

theorem ceilNat_pos {a : ℚ} (h : 0 < a) : 1 ≤ ceilNat a := by
  have h1 : (0 : ℤ) < ⌈a⌉ := Int.ceil_pos.mpr h
  unfold ceilNat; omega

theorem ceilNat_nonpos {a : ℚ} (h : a ≤ 0) : ceilNat a = 0 := by
  have h1 : ⌈a⌉ ≤ (0 : ℤ) := Int.ceil_le.mpr (by exact_mod_cast h)
  unfold ceilNat; omega

theorem ceilNat_sub_one {a : ℚ} (h : 1 < a) : ceilNat (a - 1) = ceilNat a - 1 := by
  have h1 : ⌈a - 1⌉ = ⌈a⌉ - 1 := Int.ceil_sub_one a
  have h2 : (1 : ℤ) < ⌈a⌉ := by rw [Int.lt_ceil]; exact_mod_cast h
  unfold ceilNat; omega

theorem pyInt_nonneg {q : ℚ} (h : 0 ≤ q) : pyInt q = ⌊q⌋ := by
  unfold pyInt; rw [if_neg (not_lt.mpr h)]

theorem pyInt_mono {a b : ℚ} (ha : 0 ≤ a) (h : a ≤ b) : pyInt a ≤ pyInt b := by
  rw [pyInt_nonneg ha, pyInt_nonneg (ha.trans h)]
  exact Int.floor_le_floor h

/-! ## C8 — geocoder fallback -/

theorem lookup_pair_mem {α β : Type} [BEq α] [LawfulBEq α]
    {l : List (α × β)} {k : α} {v : β} (h : l.lookup k = some v) : (k, v) ∈ l := by
  induction l with
  | nil => simp [List.lookup] at h
  | cons p rest ih =>
    rw [List.lookup] at h
    cases hb : (k == p.1) with
    | true =>
      rw [hb] at h
      simp only [Option.some.injEq] at h
      have hk : k = p.1 := eq_of_beq hb
      have hp : (k, v) = p := by rw [hk, ← h]
      rw [hp]; exact List.mem_cons_self _ _
    | false =>
      rw [hb] at h
      exact List.mem_cons_of_mem _ (ih h)

/-- C8: the geocoder fallback is a total function (never raises): for every
string input it returns latitude/longitude drawn from the fixed eight-city
table, and `resolve("chicago")` returns `(41.8781, -87.6298)`. -/
theorem geocode_fallback_total_and_chicago :
    (∀ loc : String, ∃ p ∈ mocks,
        (geocodeFallback loc).lat = p.2.1 ∧ (geocodeFallback loc).lng = p.2.2) ∧
    (geocodeFallback "chicago").lat = 41.8781 ∧
    (geocodeFallback "chicago").lng = -87.6298 := by
  have hchic : geocodeFallback "chicago" = ⟨418781/10000, -876298/10000, "chicago"⟩ := rfl
  refine ⟨fun loc => ?_, by rw [hchic]; norm_num, by rw [hchic]; norm_num⟩
  have hrep : geocodeFallback loc =
      (match mocks.lookup (pyKey loc) with
       | some p => ⟨p.1, p.2, loc⟩
       | none => ⟨407128/10000, -740060/10000, loc⟩) := rfl
  rcases h : mocks.lookup (pyKey loc) with _ | p
  · refine ⟨("new york", 407128/10000, -740060/10000), by unfold mocks; exact List.mem_cons_self _ _, ?_, ?_⟩ <;>
      rw [hrep, h]
  · exact ⟨(pyKey loc, p), lookup_pair_mem h, by rw [hrep, h], by rw [hrep, h]⟩

/-! ## C10 — `generate_eld_logs` never reads its `trip_data` argument -/

/-- C10: the output of `generate_eld_logs` is independent of its first
argument: the `trip_data` parameter is never read, so any two trip inputs
produce identical logs for the same route data and base date. -/
theorem generate_eld_logs_ignores_trip_data :
    ∀ (t1 t2 : TripData) (route : RouteData) (base : ℤ),
      generate_eld_logs t1 route base = generate_eld_logs t2 route base :=
  fun _ _ _ _ => rfl

/-! ## Planner invariants -/

/-- Non-decreasing `milesFromStart`. -/
def milesSorted (l : List Stop) : Prop :=
  List.Chain' (fun a b => a.milesFromStart ≤ b.milesFromStart) l

theorem milesSorted_push {l : List Stop} {x : Stop} {B : ℤ}
    (hs : milesSorted l) (hb : ∀ st ∈ l, st.milesFromStart ≤ B)
    (hx : B ≤ x.milesFromStart) : milesSorted (l ++ [x]) := by
  unfold milesSorted at hs ⊢
  rw [List.chain'_append]
  refine ⟨hs, List.chain'_singleton _, ?_⟩
  intro a ha b hb2
  simp only [List.head?_cons, Option.mem_def, Option.some.injEq] at hb2
  subst hb2
  have hmem : a ∈ l := List.mem_of_mem_getLast? ha
  exact (hb a hmem).trans hx

/-- The stops of `l` kept by `p` are non-decreasing in `milesFromStart`
and all lie at or before mile `B`. -/
def SortedBnd (p : Stop → Bool) (l : List Stop) (B : ℤ) : Prop :=
  milesSorted (l.filter p) ∧ ∀ st ∈ l.filter p, st.milesFromStart ≤ B

theorem SortedBnd_mono {p : Stop → Bool} {l : List Stop} {B B2 : ℤ}
    (h : SortedBnd p l B) (hBB : B ≤ B2) : SortedBnd p l B2 :=
  ⟨h.1, fun st hst => (h.2 st hst).trans hBB⟩

theorem SortedBnd_push {p : Stop → Bool} {l : List Stop} {x : Stop} {B B2 : ℤ}
    (h : SortedBnd p l B) (hBB : B ≤ B2)
    (hx : p x = true → B ≤ x.milesFromStart ∧ x.milesFromStart ≤ B2) :
    SortedBnd p (l ++ [x]) B2 := by
  obtain ⟨hs, hb⟩ := h
  constructor
  · rw [List.filter_append]
    cases hp : p x with
    | false => simpa [hp] using hs
    | true =>
      have hfx : List.filter p [x] = [x] := by simp [hp]
      rw [hfx]
      exact milesSorted_push hs hb (hx hp).1
  · intro st hst
    rw [List.filter_append, List.mem_append] at hst
    rcases hst with h1 | h1
    · exact (hb st h1).trans hBB
    · cases hp : p x with
      | false =>
        have hemp : List.filter p [x] = [] := by simp [hp]
        rw [hemp] at h1
        simp at h1
      | true =>
        have hone : List.filter p [x] = [x] := by simp [hp]
        rw [hone] at h1
        simp only [List.mem_singleton] at h1
        subst h1
        exact (hx hp).2

/-- Predicate keeping non-fuel stops. -/
def nfPred (st : Stop) : Bool := st.type != "fuel"

/-- Predicate keeping non-pickup stops. -/
def npPred (st : Stop) : Bool := st.type != "pickup"

/-- Well-formedness of the emitted stop list relative to a mile bound `B`:
the list is non-decreasing (and bounded by `B`) once fuel stops are removed
and once pickup stops are removed, and it contains no dropoff. -/
def StopsOK (B : ℤ) (l : List Stop) : Prop :=
  SortedBnd nfPred l B ∧ SortedBnd npPred l B ∧ ∀ st ∈ l, st.type ≠ "dropoff"

/-- Number of pickup stops. -/
def pickCnt (l : List Stop) : ℕ := l.countP (fun st => st.type == "pickup")

/-- The loop invariant of the planning loop. -/
def PlanInv (cfg : PlanCfg) (s : PlanState) : Prop :=
  0 ≤ s.m ∧ StopsOK (pyInt s.m) s.stops ∧
  pickCnt s.stops = (if 0 < cfg.dtp ∧ cfg.dtp ≤ s.m then 1 else 0)

theorem planBreak_m (cfg : PlanCfg) (s : PlanState) : (planBreak cfg s).m = s.m := by
  unfold planBreak; split_ifs <;> rfl

theorem planBreak_h (cfg : PlanCfg) (s : PlanState) : (planBreak cfg s).h = s.h := by
  unfold planBreak; split_ifs <;> rfl

theorem planDrive_break (cfg : PlanCfg) (s : PlanState) :
    planDrive cfg (planBreak cfg s) = planDrive cfg s := by
  unfold planDrive planShift; rw [planBreak_m, planBreak_h]

theorem planFuelStage_m (cfg : PlanCfg) (p : ℚ) (s : PlanState) :
    (planFuelStage cfg p s).m = s.m := by
  unfold planFuelStage; split_ifs <;> rfl

theorem planPickStage_m (cfg : PlanCfg) (p : ℚ) (s : PlanState) :
    (planPickStage cfg p s).m = s.m := by
  unfold planPickStage; split_ifs <;> rfl

theorem planRestStage_m (cfg : PlanCfg) (s : PlanState) : (planRestStage cfg s).m = s.m := by
  unfold planRestStage; split_ifs <;> rfl

theorem planFuelStage_h_ge (cfg : PlanCfg) (p : ℚ) (s : PlanState) :
    s.h ≤ (planFuelStage cfg p s).h := by
  unfold planFuelStage; split_ifs
  · show s.h ≤ s.h + 1/2; linarith
  · exact le_refl _

theorem planPickStage_h_ge (cfg : PlanCfg) (p : ℚ) (s : PlanState) :
    s.h ≤ (planPickStage cfg p s).h := by
  unfold planPickStage; split_ifs
  · show s.h ≤ s.h + 1; linarith
  · exact le_refl _

theorem planStep_m (cfg : PlanCfg) (s : PlanState) :
    (planStep cfg s).m = s.m + planDrive cfg s := by
  unfold planStep
  rw [planRestStage_m, planPickStage_m, planFuelStage_m]
  show (planBreak cfg s).m + planDrive cfg (planBreak cfg s) = s.m + planDrive cfg s
  rw [planBreak_m, planDrive_break]

theorem planDrive_pos {cfg : PlanCfg} {s : PlanState} (hlt : s.m < cfg.total) :
    0 < planDrive cfg s := by
  unfold planDrive planShift
  have h11 : pmod s.h 11 < 11 := pmod_lt s.h (by norm_num)
  have h14 : pmod s.h 14 < 14 := pmod_lt s.h (by norm_num)
  have hs : 0 < min (11 - pmod s.h 11) (14 - pmod s.h 14) := lt_min (by linarith) (by linarith)
  refine lt_min (lt_min ?_ (by linarith)) (by norm_num)
  unfold avgSpeed; positivity

theorem planDrive_le (cfg : PlanCfg) (s : PlanState) :
    planDrive cfg s ≤ cfg.total - s.m :=
  (min_le_left _ _).trans (min_le_right _ _)

/-- C7 (planner part): under the loop guard, each planner iteration strictly
advances `current_miles`. -/
theorem planStep_advances {cfg : PlanCfg} {s : PlanState} (hlt : s.m < cfg.total) :
    s.m < (planStep cfg s).m := by
  rw [planStep_m]; linarith [planDrive_pos hlt]

theorem planStep_m_le (cfg : PlanCfg) (s : PlanState) :
    (planStep cfg s).m ≤ cfg.total := by
  rw [planStep_m]; linarith [planDrive_le cfg s]

/-- One-step preservation of the planner invariant. -/
theorem planStep_inv {cfg : PlanCfg} {s : PlanState} (hI : PlanInv cfg s)
    (hlt : s.m < cfg.total) : PlanInv cfg (planStep cfg s) := by
  obtain ⟨hm0, ⟨hNF, hNP, hND⟩, hcnt⟩ := hI
  have hD : 0 < planDrive cfg s := planDrive_pos hlt
  set D := planDrive cfg s with hDdef
  set m2 := s.m + D with hm2def
  have hm2 : s.m ≤ m2 := by rw [hm2def]; linarith
  have hm20 : (0 : ℚ) ≤ m2 := hm0.trans hm2
  have hBB : pyInt s.m ≤ pyInt m2 := pyInt_mono hm0 hm2
  -- stage break: emits at the old position, bound unchanged
  have hSB : StopsOK (pyInt s.m) (planBreak cfg s).stops ∧
      pickCnt (planBreak cfg s).stops = pickCnt s.stops := by
    unfold planBreak
    split_ifs with hc
    · refine ⟨⟨?_, ?_, ?_⟩, ?_⟩
      · exact SortedBnd_push hNF le_rfl (fun _ => ⟨le_rfl, le_rfl⟩)
      · exact SortedBnd_push hNP le_rfl (fun _ => ⟨le_rfl, le_rfl⟩)
      · intro st hst
        rcases List.mem_append.mp hst with h1 | h1
        · exact hND st h1
        · simp only [List.mem_singleton] at h1; subst h1; simp
      · unfold pickCnt; rw [List.countP_append]; simp
    · exact ⟨⟨hNF, hNP, hND⟩, rfl⟩
  obtain ⟨⟨hNFB, hNPB, hNDB⟩, hcntB⟩ := hSB
  -- stage advance: no stop change, miles advance to m2
  set sA := planAdvance cfg (planBreak cfg s) with hsA
  have hadv : sA.m = m2 := by
    show (planBreak cfg s).m + planDrive cfg (planBreak cfg s) = m2
    rw [planBreak_m, planDrive_break, hm2def]
  have hadvStops : sA.stops = (planBreak cfg s).stops := rfl
  -- stage fuel: emits at m2; the fuel stop is dropped from the no-fuel view
  set sF := planFuelStage cfg s.m sA with hsF
  have hsFm : sF.m = m2 := by rw [hsF, planFuelStage_m, hadv]
  have hSF : (SortedBnd nfPred sF.stops (pyInt s.m) ∧ SortedBnd npPred sF.stops (pyInt m2) ∧
      ∀ st ∈ sF.stops, st.type ≠ "dropoff") ∧ pickCnt sF.stops = pickCnt s.stops := by
    rw [hsF]
    unfold planFuelStage
    split_ifs with hc
    · rw [hadv, hadvStops]
      refine ⟨⟨?_, ?_, ?_⟩, ?_⟩
      · exact SortedBnd_push hNFB le_rfl (fun hp => by simp [nfPred] at hp)
      · exact SortedBnd_push hNPB hBB (fun _ => ⟨hBB, le_rfl⟩)
      · intro st hst
        rcases List.mem_append.mp hst with h1 | h1
        · exact hNDB st h1
        · simp only [List.mem_singleton] at h1; subst h1; simp
      · have hcntB2 := hcntB
        unfold pickCnt at hcntB2 ⊢
        rw [List.countP_append, hcntB2]
        simp
    · rw [hadvStops]
      exact ⟨⟨hNFB, SortedBnd_mono hNPB hBB, hNDB⟩, hcntB⟩
  obtain ⟨⟨hNFF, hNPF, hNDF⟩, hcntF⟩ := hSF
  -- stage pickup: emits at the pickup distance, between s.m and m2
  set sP := planPickStage cfg s.m sF with hsP
  have hsPm : sP.m = m2 := by rw [hsP, planPickStage_m, hsFm]
  have hSP : (SortedBnd nfPred sP.stops (pyInt m2) ∧ SortedBnd npPred sP.stops (pyInt m2) ∧
      ∀ st ∈ sP.stops, st.type ≠ "dropoff") ∧
      pickCnt sP.stops = (if 0 < cfg.dtp ∧ cfg.dtp ≤ m2 then 1 else 0) := by
    rw [hsP]
    unfold planPickStage
    split_ifs with hc hgoal hgoal
    · rw [hsFm] at hc
      refine ⟨⟨?_, ?_, ?_⟩, ?_⟩
      · refine SortedBnd_push hNFF hBB (fun _ => ⟨?_, ?_⟩)
        · exact pyInt_mono hm0 hc.2.le
        · exact pyInt_mono (hm0.trans hc.2.le) hc.1
      · exact SortedBnd_push hNPF le_rfl (fun hp => by simp [npPred] at hp)
      · intro st hst
        rcases List.mem_append.mp hst with h1 | h1
        · exact hNDF st h1
        · simp only [List.mem_singleton] at h1; subst h1; simp
      · unfold pickCnt
        rw [List.countP_append]
        have hold : pickCnt s.stops = 0 := by
          rw [hcnt, if_neg]
          rintro ⟨-, hle⟩
          exact absurd hle (not_le.mpr hc.2)
        unfold pickCnt at hcntF hold
        rw [hcntF, hold]
        simp
    · rw [hsFm] at hc
      exact absurd ⟨hm0.trans_lt hc.2, hc.1⟩ hgoal
    · rw [hsFm] at hc
      refine ⟨⟨SortedBnd_mono hNFF hBB, hNPF, hNDF⟩, ?_⟩
      rw [hcntF, hcnt, if_pos]
      rcases hgoal with ⟨h1, h2⟩
      by_cases h3 : cfg.dtp ≤ s.m
      · exact ⟨h1, h3⟩
      · exact absurd ⟨h2, lt_of_not_le h3⟩ hc
    · rw [hsFm] at hc
      refine ⟨⟨SortedBnd_mono hNFF hBB, hNPF, hNDF⟩, ?_⟩
      rw [hcntF, hcnt, if_neg]
      rintro ⟨h1, h2⟩
      exact hgoal ⟨h1, h2.trans hm2⟩
  obtain ⟨⟨hNFP, hNPP, hNDP⟩, hcntP⟩ := hSP
  -- stage rest: emits at m2
  have hSR : (SortedBnd nfPred (planRestStage cfg sP).stops (pyInt m2) ∧
      SortedBnd npPred (planRestStage cfg sP).stops (pyInt m2) ∧
      ∀ st ∈ (planRestStage cfg sP).stops, st.type ≠ "dropoff") ∧
      pickCnt (planRestStage cfg sP).stops = pickCnt sP.stops := by
    unfold planRestStage
    split_ifs with hc
    · rw [hsPm]
      refine ⟨⟨?_, ?_, ?_⟩, ?_⟩
      · exact SortedBnd_push hNFP le_rfl (fun _ => ⟨le_rfl, le_rfl⟩)
      · exact SortedBnd_push hNPP le_rfl (fun _ => ⟨le_rfl, le_rfl⟩)
      · intro st hst
        rcases List.mem_append.mp hst with h1 | h1
        · exact hNDP st h1
        · simp only [List.mem_singleton] at h1; subst h1; simp
      · unfold pickCnt; rw [List.countP_append]; simp
    · exact ⟨⟨hNFP, hNPP, hNDP⟩, rfl⟩
  obtain ⟨⟨hNFR, hNPR, hNDR⟩, hcntR⟩ := hSR
  -- assemble
  have hfm : (planStep cfg s).m = m2 := by rw [planStep_m, hm2def]
  have hfs : (planStep cfg s).stops = (planRestStage cfg sP).stops := rfl
  refine ⟨?_, ⟨?_, ?_, ?_⟩, ?_⟩
  · rw [hfm]; exact hm20
  · rw [hfs, hfm]; exact hNFR
  · rw [hfs, hfm]; exact hNPR
  · rw [hfs]; exact hNDR
  · rw [hfs, hfm, hcntR, hcntP]

theorem planAdvance_h (cfg : PlanCfg) (s : PlanState) :
    (planAdvance cfg s).h = s.h + planDrive cfg s / avgSpeed := rfl

theorem planLoop_stop {cfg : PlanCfg} {s : PlanState} (h : ¬(s.m < cfg.total)) :
    ∀ n, planLoop cfg n s = s := by
  intro n; cases n <;> simp [planLoop, h]

theorem planLoop_inv {cfg : PlanCfg} :
    ∀ (n : ℕ) (s : PlanState), PlanInv cfg s → PlanInv cfg (planLoop cfg n s) := by
  intro n
  induction n with
  | zero => intro s hI; exact hI
  | succ n ih =>
    intro s hI
    show PlanInv cfg (if s.m < cfg.total then planLoop cfg n (planStep cfg s) else s)
    split_ifs with hg
    · exact ih _ (planStep_inv hI hg)
    · exact hI

theorem planLoop_m_le {cfg : PlanCfg} :
    ∀ (n : ℕ) (s : PlanState), s.m ≤ cfg.total → (planLoop cfg n s).m ≤ cfg.total := by
  intro n
  induction n with
  | zero => intro s h; exact h
  | succ n ih =>
    intro s h
    show (if s.m < cfg.total then planLoop cfg n (planStep cfg s) else s).m ≤ cfg.total
    split_ifs with hg
    · exact ih _ (planStep_m_le cfg s)
    · exact h

/-- From a state with `hours_worked = 0`, one iteration either reaches the
total distance exactly or advances by exactly 550 miles and resets the clock. -/
theorem planStep_h0 {cfg : PlanCfg} {s : PlanState} (hh : s.h = 0) :
    (planStep cfg s).m = cfg.total ∨
    ((planStep cfg s).h = 0 ∧ (planStep cfg s).m = s.m + 550 ∧ s.m + 550 < cfg.total) := by
  have hD : planDrive cfg s = min (cfg.total - s.m) 550 := by
    unfold planDrive planShift avgSpeed
    rw [hh, pmod_zero, pmod_zero]
    norm_num
    exact min_comm _ _
  rcases le_or_lt (cfg.total - s.m) 550 with hle | hgt
  · left
    rw [planStep_m, hD, min_eq_left hle]; ring
  · have hDv : planDrive cfg s = 550 := by rw [hD, min_eq_right hgt.le]
    right
    have hm2lt : s.m + 550 < cfg.total := by linarith
    refine ⟨?_, by rw [planStep_m, hDv], hm2lt⟩
    -- the rest stage fires and resets the clock
    set sA := planAdvance cfg (planBreak cfg s) with hsA
    have hAh : sA.h = 11 := by
      rw [hsA, planAdvance_h, planBreak_h, planDrive_break, hh, hDv]
      unfold avgSpeed; norm_num
    have hAm : sA.m = s.m + 550 := by
      rw [hsA]
      show (planBreak cfg s).m + planDrive cfg (planBreak cfg s) = s.m + 550
      rw [planBreak_m, planDrive_break, hDv]
    set sF := planFuelStage cfg s.m sA with hsF
    set sP := planPickStage cfg s.m sF with hsP
    have hPh : 11 ≤ sP.h := by
      calc (11 : ℚ) = sA.h := hAh.symm
        _ ≤ sF.h := planFuelStage_h_ge cfg s.m sA
        _ ≤ sP.h := planPickStage_h_ge cfg s.m sF
    have hPm : sP.m = s.m + 550 := by
      rw [hsP, planPickStage_m, hsF, planFuelStage_m, hAm]
    show (planRestStage cfg sP).h = 0
    unfold planRestStage
    rw [if_pos ⟨Or.inl hPh, by rw [hPm]; exact hm2lt⟩]

theorem planLoop_completes {cfg : PlanCfg} :
    ∀ (n : ℕ) (s : PlanState), s.h = 0 → cfg.total - s.m ≤ 550 * n →
      ¬((planLoop cfg (n + 1) s).m < cfg.total) := by
  intro n
  induction n with
  | zero =>
    intro s hh hb
    show ¬((if s.m < cfg.total then planLoop cfg 0 (planStep cfg s) else s).m < cfg.total)
    split_ifs with hg
    · exfalso; push_cast at hb; linarith
    · exact hg
  | succ n ih =>
    intro s hh hb
    show ¬((if s.m < cfg.total then planLoop cfg (n + 1) (planStep cfg s) else s).m < cfg.total)
    split_ifs with hg
    · rcases planStep_h0 hh with hdone | ⟨hh2, hm2, -⟩
      · rw [planLoop_stop (by rw [hdone]; exact lt_irrefl _)]
        rw [hdone]; exact lt_irrefl _
      · refine ih (planStep cfg s) hh2 ?_
        rw [hm2]; push_cast at hb ⊢; linarith
    · exact hg

/-- With the fuel `planFuel`, the planning loop runs to completion: the final
mile count is exactly the total distance (positive-distance case). -/
theorem planFinal_m {cfg : PlanCfg} (h : 0 < cfg.total) :
    (planLoop cfg (planFuel cfg) ⟨[], 0, 0⟩).m = cfg.total := by
  have hle : (planLoop cfg (planFuel cfg) ⟨[], 0, 0⟩).m ≤ cfg.total :=
    planLoop_m_le _ _ (by show (0 : ℚ) ≤ cfg.total; exact h.le)
  have hnlt : ¬((planLoop cfg (planFuel cfg) ⟨[], 0, 0⟩).m < cfg.total) := by
    unfold planFuel
    apply planLoop_completes _ _ rfl
    show cfg.total - 0 ≤ 550 * (ceilNat (cfg.total / 550) : ℚ)
    have h1 : cfg.total / 550 ≤ (⌈cfg.total / 550⌉ : ℚ) := Int.le_ceil _
    have h2 : ((ceilNat (cfg.total / 550) : ℤ) : ℚ) = ((⌈cfg.total / 550⌉ : ℤ) : ℚ) := by
      unfold ceilNat
      rw [Int.toNat_of_nonneg (Int.ceil_nonneg (by positivity))]
    push_cast at h2
    rw [h2]
    have h3 : cfg.total ≤ 550 * (cfg.total / 550) := by ring_nf; linarith
    linarith
  exact le_antisymm hle (not_lt.mp hnlt)

theorem planLoop_zero (cfg : PlanCfg) (s : PlanState) : planLoop cfg 0 s = s := rfl

theorem planLoop_succ (cfg : PlanCfg) (n : ℕ) (s : PlanState) :
    planLoop cfg (n + 1) s = if s.m < cfg.total then planLoop cfg n (planStep cfg s) else s := rfl

theorem ceilNat_eq {q : ℚ} (n : ℕ) (h1 : (n : ℚ) - 1 < q) (h2 : q ≤ n) : ceilNat q = n := by
  unfold ceilNat
  have h : ⌈q⌉ = (n : ℤ) := by
    rw [Int.ceil_eq_iff]
    constructor
    · push_cast; exact h1
    · push_cast; exact h2
  rw [h]
  exact Int.toNat_natCast n

theorem planInv_start (cfg : PlanCfg) : PlanInv cfg ⟨[], 0, 0⟩ := by
  refine ⟨le_refl 0, ⟨⟨List.chain'_nil, by simp⟩, ⟨List.chain'_nil, by simp⟩, by simp⟩, ?_⟩
  show pickCnt [] = _
  rw [if_neg]
  · rfl
  · rintro ⟨h1, h2⟩
    exact absurd (h1.trans_le h2) (lt_irrefl 0)

/-! ## C2 and C3 — the planner stop sequence -/

/-- C2 (counterexample): with total distance 1020 and distance-to-pickup 999,
the same drive step crosses both the 1000-mile fuel boundary and the pickup
point; the fuel stop (mile 1020) is emitted before the pickup stop (mile 999),
so the sequence is not ordered by milesFromStart (neither strictly nor
non-decreasingly). -/
theorem planStops_not_sorted_cex :
    (planStops ⟨1020, 999, "A", "B"⟩ "C" (102/5)).map Stop.milesFromStart =
      [550, 1020, 999, 1020] ∧
    ¬ List.Chain' (fun a b : Stop => a.milesFromStart ≤ b.milesFromStart)
        (planStops ⟨1020, 999, "A", "B"⟩ "C" (102/5)) := by
  have hf : planFuel ⟨1020, 999, "A", "B"⟩ = 3 := by
    unfold planFuel
    rw [ceilNat_eq 2 (by norm_num) (by norm_num)]
  have hmap : (planStops ⟨1020, 999, "A", "B"⟩ "C" (102/5)).map Stop.milesFromStart =
      [550, 1020, 999, 1020] := by
    unfold planStops
    rw [hf]
    norm_num [planLoop_succ, planLoop_zero, planStep, planBreak, planAdvance, planFuelStage,
      planPickStage, planRestStage, planDrive, planShift, pmod, pyInt, avgSpeed]
  refine ⟨hmap, fun hchain => ?_⟩
  have hchain2 : List.Chain' (fun a b : ℤ => a ≤ b)
      ((planStops ⟨1020, 999, "A", "B"⟩ "C" (102/5)).map Stop.milesFromStart) :=
    (List.chain'_map Stop.milesFromStart).mpr hchain
  rw [hmap] at hchain2
  norm_num [List.chain'_cons] at hchain2

/-- C2 (amended): for every planner input, the stop sequence is ordered by
non-decreasing `milesFromStart` once fuel stops are disregarded, and also once
pickup stops are disregarded (a fuel stop emitted in the same drive step as the
pickup may precede it with a larger mile value); the sequence always ends with
exactly one `dropoff` stop, and its `milesFromStart` is the truncation
`int(total_distance)` (which equals `RouteResult.totalDistance = round(total)`
whenever the total is a whole number). -/
theorem planStops_sorted_amended :
    ∀ (cfg : PlanCfg) (dname : String) (dur : ℚ),
      milesSorted ((planStops cfg dname dur).filter nfPred) ∧
      milesSorted ((planStops cfg dname dur).filter npPred) ∧
      (planStops cfg dname dur).getLast? =
        some ⟨"dropoff", dname, dname, 1, pyInt cfg.total, formatTime dur⟩ ∧
      (planStops cfg dname dur).countP (fun st => st.type == "dropoff") = 1 := by
  intro cfg dname dur
  have hlast : (planStops cfg dname dur).getLast? =
      some ⟨"dropoff", dname, dname, 1, pyInt cfg.total, formatTime dur⟩ := by
    unfold planStops
    exact List.getLast?_concat _
  rcases lt_or_le 0 cfg.total with htot | htot
  · obtain ⟨hm0, ⟨hNF, hNP, hND⟩, -⟩ :=
      planLoop_inv (planFuel cfg) ⟨[], 0, 0⟩ (planInv_start cfg)
    have hFm : (planLoop cfg (planFuel cfg) ⟨[], 0, 0⟩).m = cfg.total := planFinal_m htot
    rw [hFm] at hNF hNP
    refine ⟨?_, ?_, hlast, ?_⟩
    · exact (SortedBnd_push hNF le_rfl (fun _ => ⟨le_rfl, le_rfl⟩)).1
    · exact (SortedBnd_push hNP le_rfl (fun _ => ⟨le_rfl, le_rfl⟩)).1
    · unfold planStops
      rw [List.countP_append]
      rw [List.countP_eq_zero.mpr (fun st hst => by simp [hND st hst])]
      simp
  · have hstop : planLoop cfg (planFuel cfg) ⟨[], 0, 0⟩ = ⟨[], 0, 0⟩ :=
      planLoop_stop (by exact not_lt.mpr htot) _
    have hPS : planStops cfg dname dur =
        [⟨"dropoff", dname, dname, 1, pyInt cfg.total, formatTime dur⟩] := by
      unfold planStops
      rw [hstop]
      rfl
    refine ⟨?_, ?_, hlast, ?_⟩
    · rw [hPS]; simp [milesSorted, nfPred]
    · rw [hPS]; simp [milesSorted, npPred]
    · rw [hPS]; simp

/-- C3 (counterexample): when the distance from the current location to the
pickup location is zero (e.g. identical current and pickup locations) the
planner emits no pickup stop at all: the crossing test
`(current_miles - drive_miles) < distance_to_pickup` can never hold for
`distance_to_pickup = 0`. -/
theorem planStops_no_pickup_cex :
    pickCnt (planStops ⟨100, 0, "A", "B"⟩ "C" 2) = 0 ∧
    ¬(pickCnt (planStops ⟨100, 0, "A", "B"⟩ "C" 2) = 1) := by
  have h : pickCnt (planStops ⟨100, 0, "A", "B"⟩ "C" 2) = 0 := by
    have hf : planFuel ⟨100, 0, "A", "B"⟩ = 2 := by
      unfold planFuel
      rw [ceilNat_eq 1 (by norm_num) (by norm_num)]
    unfold planStops
    rw [hf]
    norm_num [planLoop_succ, planLoop_zero, planStep, planBreak, planAdvance, planFuelStage,
      planPickStage, planRestStage, planDrive, planShift, pmod, pyInt, pickCnt, avgSpeed]
    decide
  exact ⟨h, by rw [h]; omega⟩

/-- C3 (amended): the planner stop sequence always contains exactly one
`dropoff` stop; it contains exactly one `pickup` stop provided
`0 < distance_to_pickup ≤ total_distance`, and none when
`distance_to_pickup ≤ 0` or `total_distance < distance_to_pickup`. -/
theorem planStops_pickup_dropoff_amended :
    ∀ (cfg : PlanCfg) (dname : String) (dur : ℚ),
      (planStops cfg dname dur).countP (fun st => st.type == "dropoff") = 1 ∧
      (0 < cfg.dtp → cfg.dtp ≤ cfg.total → pickCnt (planStops cfg dname dur) = 1) ∧
      (cfg.dtp ≤ 0 → pickCnt (planStops cfg dname dur) = 0) ∧
      (cfg.total < cfg.dtp → pickCnt (planStops cfg dname dur) = 0) := by
  intro cfg dname dur
  obtain ⟨hm0, ⟨hNF, hNP, hND⟩, hcnt⟩ :=
    planLoop_inv (planFuel cfg) ⟨[], 0, 0⟩ (planInv_start cfg)
  have hdropPS : (planStops cfg dname dur).countP (fun st => st.type == "dropoff") = 1 := by
    unfold planStops
    rw [List.countP_append]
    rw [List.countP_eq_zero.mpr (fun st hst => by simp [hND st hst])]
    simp
  have hpickPS : pickCnt (planStops cfg dname dur) =
      pickCnt (planLoop cfg (planFuel cfg) ⟨[], 0, 0⟩).stops := by
    unfold planStops pickCnt
    rw [List.countP_append]
    simp
  refine ⟨hdropPS, ?_, ?_, ?_⟩
  · intro h1 h2
    have htot : (0 : ℚ) < cfg.total := h1.trans_le h2
    rw [hpickPS, hcnt, planFinal_m htot, if_pos ⟨h1, h2⟩]
  · intro h1
    rw [hpickPS, hcnt, if_neg]
    rintro ⟨h2, -⟩
    linarith
  · intro h1
    rcases le_or_lt 0 cfg.total with h0 | h0
    · have hle : (planLoop cfg (planFuel cfg) ⟨[], 0, 0⟩).m ≤ cfg.total :=
        planLoop_m_le _ _ h0
      rw [hpickPS, hcnt, if_neg]
      rintro ⟨-, h2⟩
      linarith
    · have hstop : planLoop cfg (planFuel cfg) ⟨[], 0, 0⟩ = ⟨[], 0, 0⟩ :=
        planLoop_stop (by exact not_lt.mpr h0.le) _
      rw [hpickPS, hstop]
      rfl

/-- Witness for the amended C3 theorem at a concrete satisfiable input. -/
theorem planStops_pickup_dropoff_amended_witness :
    (0 : ℚ) < 50 ∧ (50 : ℚ) ≤ 100 ∧
    pickCnt (planStops ⟨100, 50, "A", "B"⟩ "C" 2) = 1 :=
  ⟨by norm_num, by norm_num,
    (planStops_pickup_dropoff_amended ⟨100, 50, "A", "B"⟩ "C" 2).2.1
      (by norm_num) (by norm_num)⟩

/-! ## Generator invariants: contiguous segment chains -/

/-- Sum of segment durations. -/
def segsSum (l : List Seg) : ℚ := (l.map Seg.duration).sum

/-- Sum of driving-segment durations. -/
def drvSum (l : List Seg) : ℚ :=
  ((l.filter (fun sg => sg.status == "driving")).map Seg.duration).sum

/-- Sum of the four per-status accumulators. -/
def hoursSum (dh : Hours) : ℚ := dh.off + dh.sleeper + dh.driving + dh.onDuty

/-- `chainFrom a l b`: the segments of `l` are contiguous, starting at hour
`a` and ending at hour `b`, with non-negative durations. -/
def chainFrom : ℚ → List Seg → ℚ → Prop
  | a, [], b => a = b
  | a, sg :: rest, b => sg.startHour = a ∧ 0 ≤ sg.duration ∧ chainFrom (a + sg.duration) rest b

theorem chainFrom_le {a b : ℚ} : ∀ {l : List Seg}, chainFrom a l b → a ≤ b := by
  intro l
  induction l generalizing a with
  | nil => intro h; exact le_of_eq h
  | cons sg rest ih =>
    rintro ⟨-, hd, hrest⟩
    have := ih hrest
    linarith

theorem chainFrom_sum {a b : ℚ} : ∀ {l : List Seg}, chainFrom a l b → segsSum l = b - a := by
  intro l
  induction l generalizing a with
  | nil =>
    intro h
    have hab : a = b := h
    rw [segsSum]
    simp
    linarith
  | cons sg rest ih =>
    rintro ⟨-, -, hrest⟩
    have hr := ih hrest
    simp only [segsSum, List.map_cons, List.sum_cons] at hr ⊢
    linarith

theorem chainFrom_append_one {a b d : ℚ} {st loc : String} :
    ∀ {l : List Seg}, chainFrom a l b → 0 ≤ d →
      chainFrom a (l ++ [⟨st, b, d, loc⟩]) (b + d) := by
  intro l
  induction l generalizing a with
  | nil =>
    intro h hd
    subst h
    exact ⟨rfl, hd, rfl⟩
  | cons sg rest ih =>
    rintro ⟨h1, h2, h3⟩ hd
    exact ⟨h1, h2, ih h3 hd⟩

theorem chainFrom_chain' {a b : ℚ} :
    ∀ {l : List Seg}, chainFrom a l b →
      List.Chain' (fun x y => x.startHour + x.duration = y.startHour) l := by
  intro l
  induction l generalizing a with
  | nil => intro _; exact List.chain'_nil
  | cons sg rest ih =>
    rintro ⟨h1, -, h3⟩
    cases rest with
    | nil => exact List.chain'_singleton _
    | cons sg2 rest2 =>
      exact List.Chain'.cons (by rw [h1, h3.1]) (ih h3)

theorem chainFrom_head {a b : ℚ} {sg : Seg} {rest : List Seg}
    (h : chainFrom a (sg :: rest) b) : sg.startHour = a := h.1

/-! ## Generator invariants: state invariant -/

/-- Hour at which a day's record begins: 8 for the first day, 0 afterwards. -/
def dayStart (day : ℕ) : ℚ := if day = 1 then 8 else 0

theorem dayStart_nonneg (day : ℕ) : 0 ≤ dayStart day := by
  unfold dayStart; split_ifs <;> norm_num

/-- All facts needed of a closed daily log. -/
def GoodLog (L : DailyLog) : Prop :=
  L.segments ≠ [] ∧
  chainFrom (dayStart L.dayNumber) L.segments 24 ∧
  drvSum L.segments = L.hours.driving ∧
  L.hours.driving ≤ 11 ∧
  (∀ sg ∈ L.segments, sg.status = "driving" → 10 ≤ sg.startHour) ∧
  hoursSum L.hours = 24 - dayStart L.dayNumber

/-- The generator state invariant (holds at every point between segment
insertions). -/
def GenInvC (s : GenState) : Prop :=
  chainFrom (dayStart s.day) s.segs s.ch ∧
  s.ch ≤ 24 ∧
  drvSum s.segs = s.dh.driving ∧
  s.dh.driving ≤ 11 ∧
  (∀ sg ∈ s.segs, sg.status = "driving" → 10 ≤ sg.startHour) ∧
  hoursSum s.dh = s.ch - dayStart s.day ∧
  (∀ L ∈ s.logs, GoodLog L) ∧
  s.logs.map DailyLog.dayNumber = List.range' 1 (s.day - 1) ∧
  1 ≤ s.day

/-- The additional facts holding at the top of each loop iteration. -/
def GenInvTop (s : GenState) : Prop :=
  GenInvC s ∧ 10 ≤ s.ch ∧ s.ch < 47/2 ∧ s.segs ≠ []

theorem addHours_driving (dh : Hours) (st : String) (d : ℚ) :
    (addHours dh st d).driving = if st = "driving" then dh.driving + d else dh.driving := by
  unfold addHours
  split_ifs with h1 h2 h3 h4 h5 <;> first | rfl | (subst h1; simp_all) | simp_all

theorem addHours_sum (dh : Hours) (st : String) (d : ℚ) :
    hoursSum (addHours dh st d) = hoursSum dh + d := by
  unfold addHours hoursSum
  split_ifs <;> (show _ = _ ; ring)

theorem drvSum_append (l1 l2 : List Seg) : drvSum (l1 ++ l2) = drvSum l1 + drvSum l2 := by
  unfold drvSum
  rw [List.filter_append, List.map_append, List.sum_append]

theorem drvSum_single (sg : Seg) :
    drvSum [sg] = if sg.status = "driving" then sg.duration else 0 := by
  unfold drvSum
  rcases h : (sg.status == "driving") with _ | _
  · rw [if_neg (by simpa using h)]
    simp [h]
  · rw [if_pos (by simpa using h)]
    simp [h]

/-- Projection facts for `addSeg`. -/
theorem addSeg_rem (s : GenState) (st : String) (d : ℚ) (loc : String) :
    (addSeg s st d loc).rem = s.rem := by unfold addSeg; split_ifs <;> rfl

theorem addSeg_idx (s : GenState) (st : String) (d : ℚ) (loc : String) :
    (addSeg s st d loc).idx = s.idx := by unfold addSeg; split_ifs <;> rfl

theorem addSeg_logs (s : GenState) (st : String) (d : ℚ) (loc : String) :
    (addSeg s st d loc).logs = s.logs := by unfold addSeg; split_ifs <;> rfl

theorem addSeg_day (s : GenState) (st : String) (d : ℚ) (loc : String) :
    (addSeg s st d loc).day = s.day := by unfold addSeg; split_ifs <;> rfl

theorem addSeg_tmd (s : GenState) (st : String) (d : ℚ) (loc : String) :
    (addSeg s st d loc).tmd = s.tmd := by unfold addSeg; split_ifs <;> rfl

theorem addSeg_rks (s : GenState) (st : String) (d : ℚ) (loc : String) :
    (addSeg s st d loc).rks = s.rks := by unfold addSeg; split_ifs <;> rfl

theorem addSeg_ch (s : GenState) (st : String) (d : ℚ) (loc : String) :
    (addSeg s st d loc).ch = if 24 < s.ch + d then 24 else s.ch + d := by
  unfold addSeg; split_ifs <;> rfl

theorem addSeg_ch_ge {s : GenState} {st : String} {d : ℚ} {loc : String}
    (hd : 0 ≤ d) (h24 : s.ch ≤ 24) : s.ch ≤ (addSeg s st d loc).ch := by
  rw [addSeg_ch]; split_ifs with h
  · exact h24
  · linarith

theorem addSeg_segs_ne {s : GenState} {st : String} {d : ℚ} {loc : String}
    (h : s.segs ≠ []) : (addSeg s st d loc).segs ≠ [] := by
  unfold addSeg
  split_ifs with h1 h2
  · show s.segs ++ _ ≠ []; simp
  · exact h
  · show s.segs ++ _ ≠ []; simp

/-- `add_segment` preserves the state invariant.  Adding a driving segment
additionally requires the per-day driving cap to be respected and the clock
to be at or past hour 10. -/
theorem addSeg_invC {s : GenState} {st : String} {d : ℚ} {loc : String}
    (hI : GenInvC s) (hd : 0 ≤ d)
    (hdrv : st = "driving" → s.dh.driving + d ≤ 11 ∧ 10 ≤ s.ch) :
    GenInvC (addSeg s st d loc) := by
  obtain ⟨hch, h24, hdv, hdv11, hst, hhs, hlogs, hnum, hday⟩ := hI
  have hsplit : (24 < s.ch + d ∧ 0 < 24 - s.ch) ∨ (24 < s.ch + d ∧ ¬(0 < 24 - s.ch)) ∨
      ¬(24 < s.ch + d) := by tauto
  unfold addSeg
  rcases hsplit with ⟨h1, h2⟩ | ⟨h1, h2⟩ | h1
  · rw [if_pos h1, if_pos h2]
    have hact : (0 : ℚ) ≤ 24 - s.ch := by linarith
    have hactd : 24 - s.ch ≤ d := by linarith
    refine ⟨?_, by norm_num, ?_, ?_, ?_, ?_, hlogs, hnum, hday⟩
    · have hap : chainFrom (dayStart s.day)
          (s.segs ++ [⟨st, s.ch, 24 - s.ch, loc⟩]) (s.ch + (24 - s.ch)) :=
        chainFrom_append_one hch hact
      simpa using hap
    · rw [drvSum_append, drvSum_single, hdv, addHours_driving]
      split_ifs <;> simp
    · rw [addHours_driving]
      split_ifs with hdrv2
      · rcases hdrv hdrv2 with ⟨hcap, -⟩
        linarith
      · exact hdv11
    · intro sg hsg
      rcases List.mem_append.mp hsg with hm | hm
      · exact hst sg hm
      · simp only [List.mem_singleton] at hm
        subst hm
        intro hdrv2
        exact (hdrv hdrv2).2
    · rw [addHours_sum, hhs]
      show _ = 24 - dayStart s.day
      ring
  · rw [if_pos h1, if_neg h2]
    have hcheq : s.ch = 24 := by linarith
    refine ⟨?_, le_refl _, hdv, hdv11, hst, ?_, hlogs, hnum, hday⟩
    · show chainFrom (dayStart s.day) s.segs 24
      rw [← hcheq]; exact hch
    · show hoursSum s.dh = 24 - dayStart s.day
      rw [← hcheq]; exact hhs
  · rw [if_neg h1]
    refine ⟨?_, by show s.ch + d ≤ 24; linarith, ?_, ?_, ?_, ?_, hlogs, hnum, hday⟩
    · exact chainFrom_append_one hch hd
    · rw [drvSum_append, drvSum_single, hdv, addHours_driving]
      split_ifs <;> simp
    · rw [addHours_driving]
      split_ifs with hdrv2
      · exact (hdrv hdrv2).1
      · exact hdv11
    · intro sg hsg
      rcases List.mem_append.mp hsg with hm | hm
      · exact hst sg hm
      · simp only [List.mem_singleton] at hm
        subst hm
        intro hdrv2
        exact (hdrv hdrv2).2
    · rw [addHours_sum, hhs]
      show _ = s.ch + d - dayStart s.day
      ring

/-- `save_day` preserves the invariant when the day is full (clock at 24). -/
theorem saveDay_invC {base : ℤ} {s : GenState} (hI : GenInvC s) (hch : s.ch = 24)
    (hne : s.segs ≠ []) : GenInvC (saveDay base s) := by
  obtain ⟨hch2, h24, hdv, hdv11, hst, hhs, hlogs, hnum, hday⟩ := hI
  have hgood : GoodLog ⟨base + (s.day : ℤ) - 1, s.day, s.dh, s.segs, s.rks, rndEven s.tmd⟩ := by
    refine ⟨hne, ?_, hdv, hdv11, hst, ?_⟩
    · show chainFrom (dayStart s.day) s.segs 24
      rw [← hch]; exact hch2
    · show hoursSum s.dh = 24 - dayStart s.day
      rw [← hch]; exact hhs
  refine ⟨?_, by show (0 : ℚ) ≤ 24; norm_num, ?_, ?_, ?_, ?_, ?_, ?_, ?_⟩
  · show chainFrom (dayStart (s.day + 1)) [] 0
    have hds : dayStart (s.day + 1) = 0 := by
      unfold dayStart; rw [if_neg (by omega)]
    rw [hds]; rfl
  · show drvSum [] = (0 : ℚ); rfl
  · show (0 : ℚ) ≤ 11; norm_num
  · show ∀ sg ∈ ([] : List Seg), sg.status = "driving" → 10 ≤ sg.startHour
    intro sg hsg
    simp at hsg
  · show hoursSum ⟨0, 0, 0, 0⟩ = 0 - dayStart (s.day + 1)
    have hds : dayStart (s.day + 1) = 0 := by
      unfold dayStart; rw [if_neg (by omega)]
    rw [hds]; unfold hoursSum; norm_num
  · intro L hL
    rcases List.mem_append.mp hL with hm | hm
    · exact hlogs L hm
    · simp only [List.mem_singleton] at hm
      subst hm
      exact hgood
  · show (s.logs ++ [_]).map DailyLog.dayNumber = List.range' 1 (s.day + 1 - 1)
    rw [List.map_append, hnum]
    have h1 : s.day + 1 - 1 = (s.day - 1) + 1 := by omega
    rw [h1, List.range'_concat]
    simp
    omega
  · show 1 ≤ s.day + 1
    omega

theorem addSeg_dh_of_fit {s : GenState} {st : String} {d : ℚ} {loc : String}
    (h : ¬(24 < s.ch + d)) : (addSeg s st d loc).dh = addHours s.dh st d := by
  unfold addSeg; rw [if_neg h]

theorem addSeg_segs_of_fit {s : GenState} {st : String} {d : ℚ} {loc : String}
    (h : ¬(24 < s.ch + d)) : (addSeg s st d loc).segs = s.segs ++ [⟨st, s.ch, d, loc⟩] := by
  unfold addSeg; rw [if_neg h]

theorem saveDay_ch (base : ℤ) (s : GenState) : (saveDay base s).ch = 0 := rfl

theorem saveDay_segs (base : ℤ) (s : GenState) : (saveDay base s).segs = [] := rfl

theorem saveDay_rem (base : ℤ) (s : GenState) : (saveDay base s).rem = s.rem := rfl

theorem saveDay_idx (base : ℤ) (s : GenState) : (saveDay base s).idx = s.idx := rfl

theorem saveDay_day (base : ℤ) (s : GenState) : (saveDay base s).day = s.day + 1 := rfl

theorem saveDay_dh (base : ℤ) (s : GenState) : (saveDay base s).dh = ⟨0, 0, 0, 0⟩ := rfl

theorem addRemark_invC {s : GenState} {r : String} (h : GenInvC s) : GenInvC (addRemark s r) := h

theorem addRemark_ch (s : GenState) (r : String) : (addRemark s r).ch = s.ch := rfl

theorem addRemark_segs (s : GenState) (r : String) : (addRemark s r).segs = s.segs := rfl

theorem addRemark_rem (s : GenState) (r : String) : (addRemark s r).rem = s.rem := rfl

theorem addRemark_idx (s : GenState) (r : String) : (addRemark s r).idx = s.idx := rfl

theorem addRemark_dh (s : GenState) (r : String) : (addRemark s r).dh = s.dh := rfl

theorem GenInvC_ch_le {s : GenState} (h : GenInvC s) : s.ch ≤ 24 := h.2.1

/-- The sleeper fill-to-24 used before every day save. -/
theorem fillSleep_spec {s : GenState} (hI : GenInvC s) :
    GenInvC (fillSleep s) ∧ (fillSleep s).ch = 24 ∧ (fillSleep s).day = s.day ∧
    (fillSleep s).rem = s.rem ∧ (fillSleep s).idx = s.idx ∧
    (s.segs ≠ [] → (fillSleep s).segs ≠ []) := by
  have h24 : s.ch ≤ 24 := GenInvC_ch_le hI
  unfold fillSleep
  split_ifs with hc
  · refine ⟨addSeg_invC hI (by linarith) (fun h => absurd h (by decide)), ?_,
      addSeg_day _ _ _ _, addSeg_rem _ _ _ _, addSeg_idx _ _ _ _, fun h => addSeg_segs_ne h⟩
    rw [addSeg_ch, if_neg (by linarith)]
    ring
  · exact ⟨hI, by linarith, rfl, rfl, rfl, fun h => h⟩

theorem fillOff_spec {s : GenState} (hI : GenInvC s) :
    GenInvC (fillOff s) ∧ (fillOff s).ch = 24 ∧ (fillOff s).day = s.day ∧
    (s.segs ≠ [] → (fillOff s).segs ≠ []) := by
  have h24 : s.ch ≤ 24 := GenInvC_ch_le hI
  unfold fillOff
  split_ifs with hc
  · refine ⟨addSeg_invC hI (by linarith) (fun h => absurd h (by decide)), ?_,
      addSeg_day _ _ _ _, fun h => addSeg_segs_ne h⟩
    rw [addSeg_ch, if_neg (by linarith)]
    ring
  · exact ⟨hI, by linarith, rfl, fun h => h⟩

theorem driveSeg_idx (s : GenState) (d : ℚ) (loc : String) :
    (driveSeg s d loc).idx = s.idx := by
  unfold driveSeg
  split_ifs
  · show (addSeg s "driving" d loc).idx = s.idx
    exact addSeg_idx _ _ _ _
  · rfl

theorem driveSeg_day (s : GenState) (d : ℚ) (loc : String) :
    (driveSeg s d loc).day = s.day := by
  unfold driveSeg
  split_ifs
  · show (addSeg s "driving" d loc).day = s.day
    exact addSeg_day _ _ _ _
  · rfl

theorem driveSeg_rem_le (s : GenState) (d : ℚ) (loc : String) :
    (driveSeg s d loc).rem ≤ s.rem := by
  unfold driveSeg
  split_ifs with h
  · show (addSeg s "driving" d loc).rem - d * avgSpeed ≤ s.rem
    rw [addSeg_rem]
    unfold avgSpeed
    nlinarith
  · exact le_refl _

theorem driveSeg_rem_pos (s : GenState) {d : ℚ} (loc : String) (h : 0 < d) :
    (driveSeg s d loc).rem = s.rem - d * avgSpeed := by
  unfold driveSeg
  rw [if_pos h]
  show (addSeg s "driving" d loc).rem - d * avgSpeed = _
  rw [addSeg_rem]

theorem driveSeg_ch_ge {s : GenState} {d : ℚ} {loc : String} (h24 : s.ch ≤ 24) :
    s.ch ≤ (driveSeg s d loc).ch := by
  unfold driveSeg
  split_ifs with h
  · show s.ch ≤ (addSeg s "driving" d loc).ch
    exact addSeg_ch_ge h.le h24
  · exact le_refl _

theorem driveSeg_segs_ne {s : GenState} {d : ℚ} {loc : String} (hne : s.segs ≠ []) :
    (driveSeg s d loc).segs ≠ [] := by
  unfold driveSeg
  split_ifs with h
  · show (addSeg s "driving" d loc).segs ≠ []
    exact addSeg_segs_ne hne
  · exact hne

theorem driveSeg_invC {s : GenState} {d : ℚ} {loc : String} (hI : GenInvC s)
    (h10 : 10 ≤ s.ch) (hcap : d ≤ 11 - s.dh.driving) : GenInvC (driveSeg s d loc) := by
  unfold driveSeg
  split_ifs with h
  · show GenInvC
      { addSeg s "driving" d loc with
        tmd := (addSeg s "driving" d loc).tmd + d * avgSpeed,
        rem := (addSeg s "driving" d loc).rem - d * avgSpeed }
    exact addSeg_invC hI h.le (fun _ => ⟨by linarith, h10⟩)
  · exact hI

/-- The forced HOS rollover produces a fresh loop-top state. -/
theorem hosRoll_spec {base : ℤ} {s : GenState} (hI : GenInvC s) (hne : s.segs ≠ []) :
    GenInvTop (hosRoll base s) ∧ (hosRoll base s).rem = s.rem ∧
    (hosRoll base s).idx = s.idx ∧ (hosRoll base s).dh = ⟨0, 10, 0, 1/2⟩ := by
  set s1 := addSeg s "on-duty" (1/2) "Post-trip inspection" with hs1
  set s2 := fillSleep s1 with hs2
  set s3 := saveDay base s2 with hs3
  set s4 := addSeg s3 "sleeper" 10 "Rest area" with hs4
  set s5 := addSeg s4 "on-duty" (1/2) "Pre-trip inspection" with hs5
  have hI1 : GenInvC s1 := addSeg_invC hI (by norm_num) (fun h => absurd h (by decide))
  have hne1 : s1.segs ≠ [] := addSeg_segs_ne hne
  obtain ⟨hI2, hch2, -, hrem2, hidx2, hne2⟩ := fillSleep_spec hI1
  have hI3 : GenInvC s3 := saveDay_invC hI2 hch2 (hne2 hne1)
  have hch3 : s3.ch = 0 := saveDay_ch base s2
  have hI4 : GenInvC s4 := addSeg_invC hI3 (by norm_num) (fun h => absurd h (by decide))
  have hfit4 : ¬(24 < s3.ch + 10) := by rw [hch3]; norm_num
  have hch4 : s4.ch = 10 := by rw [hs4, addSeg_ch, if_neg hfit4, hch3]; norm_num
  have hne4 : s4.segs ≠ [] := by
    rw [hs4, addSeg_segs_of_fit hfit4]
    simp
  have hdh4 : s4.dh = ⟨0, 10, 0, 0⟩ := by
    rw [hs4, addSeg_dh_of_fit hfit4, hs3, saveDay_dh]
    simp [addHours]
  have hI5 : GenInvC s5 := addSeg_invC hI4 (by norm_num) (fun h => absurd h (by decide))
  have hfit5 : ¬(24 < s4.ch + 1/2) := by rw [hch4]; norm_num
  have hch5 : s5.ch = 21/2 := by rw [hs5, addSeg_ch, if_neg hfit5, hch4]; norm_num
  have hne5 : s5.segs ≠ [] := addSeg_segs_ne hne4
  have hdh5 : s5.dh = ⟨0, 10, 0, 1/2⟩ := by
    rw [hs5, addSeg_dh_of_fit hfit5, hdh4]
    simp [addHours]
  have hroll : hosRoll base s = s5 := rfl
  rw [hroll]
  refine ⟨⟨hI5, by rw [hch5]; norm_num, by rw [hch5]; norm_num, hne5⟩, ?_, ?_, hdh5⟩
  · rw [hs5, addSeg_rem, hs4, addSeg_rem, hs3, saveDay_rem, hrem2, hs1, addSeg_rem]
  · rw [hs5, addSeg_idx, hs4, addSeg_idx, hs3, saveDay_idx, hidx2, hs1, addSeg_idx]

/-- The common shape of the pickup/dropoff, fuel and break branches:
an optional driving segment, a fixed-status segment, and a remark. -/
theorem stopDrive_spec {s0 : GenState} {drive : ℚ} {locD st2 : String} {d2 : ℚ}
    {loc2 r : String} (hI : GenInvC s0) (h10 : 10 ≤ s0.ch) (hne : s0.segs ≠ [])
    (hcap : drive ≤ 11 - s0.dh.driving) (hd2 : 0 ≤ d2) (hst2 : st2 = "driving" → False) :
    GenInvC (addRemark (addSeg (driveSeg s0 drive locD) st2 d2 loc2) r) ∧
    10 ≤ (addRemark (addSeg (driveSeg s0 drive locD) st2 d2 loc2) r).ch ∧
    (addRemark (addSeg (driveSeg s0 drive locD) st2 d2 loc2) r).segs ≠ [] ∧
    (addRemark (addSeg (driveSeg s0 drive locD) st2 d2 loc2) r).rem ≤ s0.rem ∧
    (addRemark (addSeg (driveSeg s0 drive locD) st2 d2 loc2) r).idx = s0.idx := by
  have h24 : s0.ch ≤ 24 := GenInvC_ch_le hI
  have hId : GenInvC (driveSeg s0 drive locD) := driveSeg_invC hI h10 hcap
  have hIa : GenInvC (addSeg (driveSeg s0 drive locD) st2 d2 loc2) :=
    addSeg_invC hId hd2 (fun h => absurd (hst2 h) id)
  refine ⟨addRemark_invC hIa, ?_, ?_, ?_, ?_⟩
  · rw [addRemark_ch]
    exact h10.trans ((driveSeg_ch_ge h24).trans (addSeg_ch_ge hd2 (GenInvC_ch_le hId)))
  · rw [addRemark_segs]
    exact addSeg_segs_ne (driveSeg_segs_ne hne)
  · rw [addRemark_rem, addSeg_rem]
    exact driveSeg_rem_le _ _ _
  · rw [addRemark_idx, addSeg_idx, driveSeg_idx]

/-- Stop processing preserves the invariant, keeps the clock at or past 10,
never increases the remaining distance and leaves the index unchanged. -/
theorem stopBranch_spec {base : ℤ} {stop : Stop} {s0 : GenState} (hI : GenInvC s0)
    (h10 : 10 ≤ s0.ch) (hne : s0.segs ≠ []) :
    GenInvC (stopBranch base stop s0) ∧ 10 ≤ (stopBranch base stop s0).ch ∧
    (stopBranch base stop s0).segs ≠ [] ∧ (stopBranch base stop s0).rem ≤ s0.rem ∧
    (stopBranch base stop s0).idx = s0.idx := by
  unfold stopBranch
  by_cases h1 : stop.type = "pickup" ∨ stop.type = "dropoff"
  · rw [if_pos h1]
    exact stopDrive_spec hI h10 hne ((min_le_left _ _).trans (min_le_right _ _))
      (by norm_num) (fun h => by exact absurd h (by decide))
  rw [if_neg h1]
  by_cases h2 : stop.type = "fuel"
  · rw [if_pos h2]
    exact stopDrive_spec hI h10 hne (min_le_right _ _)
      (by norm_num) (fun h => by exact absurd h (by decide))
  rw [if_neg h2]
  by_cases h3 : stop.type = "30-min break"
  · rw [if_pos h3]
    exact stopDrive_spec hI h10 hne ((min_le_left _ _).trans (min_le_right _ _))
      (by norm_num) (fun h => by exact absurd h (by decide))
  rw [if_neg h3]
  by_cases h4 : stop.type = "rest"
  · rw [if_pos h4]
    obtain ⟨hI2, hch2, -, hrem2, hidx2, hne2⟩ := fillSleep_spec hI
    have hI3 : GenInvC (saveDay base (fillSleep s0)) := saveDay_invC hI2 hch2 (hne2 hne)
    have hch3 : (saveDay base (fillSleep s0)).ch = 0 := saveDay_ch _ _
    have hfit : ¬(24 < (saveDay base (fillSleep s0)).ch + 10) := by rw [hch3]; norm_num
    refine ⟨addSeg_invC hI3 (by norm_num) (fun h => absurd h (by decide)), ?_, ?_, ?_, ?_⟩
    · rw [addSeg_ch, if_neg hfit, hch3]; norm_num
    · rw [addSeg_segs_of_fit hfit, saveDay_segs]
      simp
    · rw [addSeg_rem, saveDay_rem, hrem2]
    · rw [addSeg_idx, saveDay_idx, hidx2]
  rw [if_neg h4]
  exact ⟨hI, h10, hne, le_refl _, rfl⟩

/-- The 23.5-hour end-of-iteration rollover restores the loop-top invariant. -/
theorem dayRoll_spec {base : ℤ} {s : GenState} (hI : GenInvC s) (hne : s.segs ≠ [])
    (h10 : 10 ≤ s.ch) :
    GenInvTop (dayRoll base s) ∧ (dayRoll base s).rem = s.rem ∧
    (dayRoll base s).idx = s.idx ∧
    (47/2 ≤ s.ch → (dayRoll base s).dh = ⟨0, 10, 0, 0⟩) ∧
    (¬(47/2 ≤ s.ch) → (dayRoll base s).dh = s.dh) := by
  have h24 : s.ch ≤ 24 := GenInvC_ch_le hI
  unfold dayRoll
  split_ifs with hc
  · have hI1 : GenInvC (addSeg s "off-duty" (24 - s.ch) "") :=
      addSeg_invC hI (by linarith) (fun h => absurd h (by decide))
    have hch1 : (addSeg s "off-duty" (24 - s.ch) "").ch = 24 := by
      rw [addSeg_ch, if_neg (by linarith)]; ring
    have hne1 : (addSeg s "off-duty" (24 - s.ch) "").segs ≠ [] := addSeg_segs_ne hne
    have hI2 : GenInvC (saveDay base (addSeg s "off-duty" (24 - s.ch) "")) :=
      saveDay_invC hI1 hch1 hne1
    have hch2 : (saveDay base (addSeg s "off-duty" (24 - s.ch) "")).ch = 0 := saveDay_ch _ _
    have hfit : ¬(24 < (saveDay base (addSeg s "off-duty" (24 - s.ch) "")).ch + 10) := by
      rw [hch2]; norm_num
    refine ⟨⟨addSeg_invC hI2 (by norm_num) (fun h => absurd h (by decide)), ?_, ?_, ?_⟩,
      ?_, ?_, fun _ => ?_, fun hcon => absurd hc hcon⟩
    · rw [addSeg_ch, if_neg hfit, hch2]; norm_num
    · rw [addSeg_ch, if_neg hfit, hch2]; norm_num
    · rw [addSeg_segs_of_fit hfit, saveDay_segs]
      simp
    · rw [addSeg_rem, saveDay_rem, addSeg_rem]
    · rw [addSeg_idx, saveDay_idx, addSeg_idx]
    · rw [addSeg_dh_of_fit hfit, saveDay_dh]
      simp [addHours]
  · exact ⟨⟨hI, h10, lt_of_not_le hc, hne⟩, rfl, rfl, fun h => absurd h hc, fun _ => rfl⟩

/-- The state carried by either loop-step outcome. -/
def GenRes.state : GenRes → GenState
  | .cont s => s
  | .brk s => s

/-- One iteration of the generator loop preserves the loop-top invariant. -/
theorem genStep_invTop (base : ℤ) (stops : List Stop) {s : GenState} (hT : GenInvTop s) :
    GenInvTop (genStep base stops s).state := by
  obtain ⟨hI, h10, hlt, hne⟩ := hT
  unfold genStep
  split_ifs with h1 h2 h3
  · exact (hosRoll_spec hI hne).1
  · show GenInvTop (dayRoll base (stopBranch base (stops.get ⟨s.idx, h2⟩)
      { s with idx := s.idx + 1 }))
    have hI0 : GenInvC { s with idx := s.idx + 1 } := hI
    obtain ⟨hIb, h10b, hneb, -, -⟩ := stopBranch_spec hI0 h10 hne
    exact (dayRoll_spec hIb hneb h10b).1
  · show GenInvTop (dayRoll base (driveSeg s (elseDrive s) ""))
    have hcap : elseDrive s ≤ 11 - s.dh.driving := (min_le_left _ _).trans (min_le_right _ _)
    have hIb : GenInvC (driveSeg s (elseDrive s) "") := driveSeg_invC hI h10 hcap
    have h10b : 10 ≤ (driveSeg s (elseDrive s) "").ch :=
      h10.trans (driveSeg_ch_ge (GenInvC_ch_le hI))
    exact (dayRoll_spec hIb (driveSeg_segs_ne hne) h10b).1
  · exact ⟨hI, h10, hlt, hne⟩

theorem genLoop_inv {base : ℤ} {stops : List Stop} :
    ∀ (n : ℕ) (s : GenState), GenInvTop s →
      ∀ s2, genLoop base stops n s = some s2 → GenInvTop s2 := by
  intro n
  induction n with
  | zero =>
    intro s hT s2 h
    simp [genLoop] at h
  | succ n ih =>
    intro s hT s2 h
    rw [show genLoop base stops (n + 1) s =
        (if 0 < s.rem ∨ s.idx < stops.length then
          match genStep base stops s with
          | .cont s1 => genLoop base stops n s1
          | .brk s1 => some s1
        else some s) from rfl] at h
    split_ifs at h with hg
    · rcases hstep : genStep base stops s with s1 | s1
      · rw [hstep] at h
        have hT1 : GenInvTop s1 := by
          have hq := genStep_invTop base stops hT
          rwa [hstep] at hq
        exact ih s1 hT1 s2 h
      · rw [hstep] at h
        simp only [Option.some.injEq] at h
        subst h
        have hq := genStep_invTop base stops hT
        rwa [hstep] at hq
    · simp only [Option.some.injEq] at h
      subst h
      exact hT

theorem genInit_invTop (route : RouteData) : GenInvTop (genInit route) := by
  have hI0 : GenInvC ⟨[], 8, 1, [], ⟨0, 0, 0, 0⟩, 0, (route.totalDistance : ℚ), [], 0⟩ := by
    refine ⟨?_, by norm_num, rfl, by norm_num, ?_, ?_, ?_, rfl, le_refl 1⟩
    · show chainFrom (dayStart 1) [] 8
      unfold dayStart
      norm_num
      rfl
    · intro sg hsg; simp at hsg
    · show hoursSum ⟨0, 0, 0, 0⟩ = 8 - dayStart 1
      unfold hoursSum dayStart
      norm_num
    · intro L hL; simp at hL
  have hI1 : GenInvC (addSeg ⟨[], 8, 1, [], ⟨0, 0, 0, 0⟩, 0, (route.totalDistance : ℚ), [], 0⟩
      "sleeper" 8 "Home terminal") := addSeg_invC hI0 (by norm_num) (fun h => absurd h (by decide))
  have hfit1 : ¬((24 : ℚ) < 8 + 8) := by norm_num
  have hch1 : (addSeg ⟨[], 8, 1, [], ⟨0, 0, 0, 0⟩, 0, (route.totalDistance : ℚ), [], 0⟩
      "sleeper" 8 "Home terminal").ch = 16 := by
    rw [addSeg_ch]
    norm_num
  have hI2 : GenInvC (addRemark (addSeg ⟨[], 8, 1, [], ⟨0, 0, 0, 0⟩, 0,
      (route.totalDistance : ℚ), [], 0⟩ "sleeper" 8 "Home terminal")
      "Started trip after 10-hour rest") := addRemark_invC hI1
  have hIfin : GenInvC (genInit route) :=
    addSeg_invC hI2 (by norm_num) (fun h => absurd h (by decide))
  refine ⟨hIfin, ?_, ?_, ?_⟩
  · show 10 ≤ (genInit route).ch
    have : (genInit route).ch = 33/2 := by
      unfold genInit
      rw [addSeg_ch, addRemark_ch, hch1]
      norm_num
    rw [this]; norm_num
  · show (genInit route).ch < 47/2
    have : (genInit route).ch = 33/2 := by
      unfold genInit
      rw [addSeg_ch, addRemark_ch, hch1]
      norm_num
    rw [this]; norm_num
  · show (genInit route).segs ≠ []
    unfold genInit
    apply addSeg_segs_ne
    rw [addRemark_segs, addSeg_segs_of_fit (by show ¬((24:ℚ) < 8 + 8); norm_num)]
    simp

/-- Closing the final day yields only good, consecutively numbered days. -/
theorem genFinish_good {base : ℤ} {s : GenState} (hT : GenInvTop s) :
    (∀ L ∈ genFinish base s, GoodLog L) ∧
    (genFinish base s).map DailyLog.dayNumber = List.range' 1 (genFinish base s).length ∧
    genFinish base s ≠ [] := by
  obtain ⟨hI, h10, hlt, hne⟩ := hT
  unfold genFinish
  rw [if_neg (by simpa using hne)]
  rw [if_pos (le_of_lt hlt)]
  have hI1 : GenInvC (addSeg s "on-duty" (1/2) "Post-trip inspection") :=
    addSeg_invC hI (by norm_num) (fun h => absurd h (by decide))
  have hne1 : (addSeg s "on-duty" (1/2) "Post-trip inspection").segs ≠ [] := addSeg_segs_ne hne
  obtain ⟨hI2, hch2, -, hne2⟩ := fillOff_spec hI1
  have hI3 : GenInvC (addRemark (fillOff (addSeg s "on-duty" (1/2) "Post-trip inspection"))
      "Trip completed") := addRemark_invC hI2
  have hI4 : GenInvC (saveDay base (addRemark (fillOff (addSeg s "on-duty" (1/2)
      "Post-trip inspection")) "Trip completed")) := by
    refine saveDay_invC hI3 ?_ ?_
    · rw [addRemark_ch]; exact hch2
    · rw [addRemark_segs]; exact hne2 hne1
  obtain ⟨-, -, -, -, -, -, hlogs, hnum, -⟩ := hI4
  refine ⟨hlogs, ?_, ?_⟩
  · rw [hnum]
    have hlen := congrArg List.length hnum
    rw [List.length_map, List.length_range'] at hlen
    rw [hlen]
  · show (saveDay base _).logs ≠ []
    rw [show ∀ t, (saveDay base t).logs = t.logs ++ [_] from fun t => rfl]
    simp

/-- Every daily log emitted by `generate_eld_logs` is well-formed, the logs
are numbered 1, 2, … consecutively, and there is at least one. -/
theorem generate_good (t : TripData) (route : RouteData) (base : ℤ) :
    (∀ L ∈ generate_eld_logs t route base, GoodLog L) ∧
    (generate_eld_logs t route base).map DailyLog.dayNumber =
      List.range' 1 (generate_eld_logs t route base).length ∧
    generate_eld_logs t route base ≠ [] := by
  have hTfin : GenInvTop ((genLoop base route.restStops (genFuel route)
      (genInit route)).getD (genInit route)) := by
    rcases hres : genLoop base route.restStops (genFuel route) (genInit route) with _ | s2
    · exact genInit_invTop route
    · exact genLoop_inv (genFuel route) (genInit route) (genInit_invTop route) s2 hres
  exact genFinish_good hTfin

theorem genLoop_zero (base : ℤ) (stops : List Stop) (s : GenState) :
    genLoop base stops 0 s = none := rfl

theorem genLoop_succ (base : ℤ) (stops : List Stop) (n : ℕ) (s : GenState) :
    genLoop base stops (n + 1) s =
      if 0 < s.rem ∨ s.idx < stops.length then
        match genStep base stops s with
        | .cont s1 => genLoop base stops n s1
        | .brk s1 => some s1
      else some s := rfl

/-! ## Concrete example routes (evaluated end to end, used by witnesses) -/

def tdEx : TripData := ⟨"d", "a", "b", "c", 0⟩

/-- A 100-mile trip with the pickup 50 miles in. -/
def routeShort : RouteData :=
  plan_route_core ⟨1, 1, "cur"⟩ ⟨2, 2, "pick"⟩ ⟨3, 3, "drop"⟩ [] 100 2 50

/-- A 550-mile trip with the pickup 500 miles in (11 driving hours). -/
def routeLong : RouteData :=
  plan_route_core ⟨1, 1, "cur"⟩ ⟨2, 2, "pick"⟩ ⟨3, 3, "drop"⟩ [] 550 11 500

def dayShort1 : DailyLog :=
  ⟨0, 1, ⟨3, 8, 2, 3⟩,
   [⟨"sleeper", 8, 8, "Home terminal"⟩,
    ⟨"on-duty", 16, 1/2, "Pre-trip inspection"⟩,
    ⟨"driving", 33/2, 2, "En route to pick"⟩,
    ⟨"on-duty", 37/2, 1, "Pickup at pick"⟩,
    ⟨"on-duty", 39/2, 1, "Delivery at drop"⟩,
    ⟨"on-duty", 41/2, 1/2, "Post-trip inspection"⟩,
    ⟨"off-duty", 21, 3, "End of day"⟩],
   ["Started trip after 10-hour rest", "Pickup: pick", "Delivery: drop", "Trip completed"],
   100⟩

def dayLong1 : DailyLog :=
  ⟨0, 1, ⟨0, 8, 15/2, 1/2⟩,
   [⟨"sleeper", 8, 8, "Home terminal"⟩,
    ⟨"on-duty", 16, 1/2, "Pre-trip inspection"⟩,
    ⟨"driving", 33/2, 15/2, "En route to pick"⟩,
    ⟨"off-duty", 24, 0, ""⟩],
   ["Started trip after 10-hour rest", "Pickup: pick"],
   550⟩

def dayLong2 : DailyLog :=
  ⟨1, 2, ⟨25/2, 10, 0, 3/2⟩,
   [⟨"sleeper", 0, 10, "Rest area"⟩,
    ⟨"on-duty", 10, 1, "Delivery at drop"⟩,
    ⟨"on-duty", 11, 1/2, "Post-trip inspection"⟩,
    ⟨"off-duty", 23/2, 25/2, "End of day"⟩],
   ["Started trip after 10-hour rest", "Pickup: pick", "Delivery: drop", "Trip completed"],
   0⟩

set_option maxHeartbeats 4000000 in
theorem routeShort_logs : generate_eld_logs tdEx routeShort 0 = [dayShort1] := by
  have hroute : routeShort.restStops =
      [⟨"pickup", "pick", "pick", 1, 50, formatTime 2⟩,
       ⟨"dropoff", "drop", "drop", 1, 100, formatTime 2⟩] := by
    show planStops ⟨100, 50, "cur", "pick"⟩ "drop" 2 = _
    have hf : planFuel ⟨100, 50, "cur", "pick"⟩ = 2 := by
      unfold planFuel
      rw [ceilNat_eq 1 (by norm_num) (by norm_num)]
    unfold planStops
    rw [hf]
    norm_num [planLoop_succ, planLoop_zero, planStep, planBreak, planAdvance, planFuelStage,
      planPickStage, planRestStage, planDrive, planShift, pmod, pyInt, avgSpeed]
  have htd : routeShort.totalDistance = 100 := by
    show rndEven 100 = 100
    norm_num [rndEven]
  have hfuel : genFuel routeShort = 14 := by
    unfold genFuel
    rw [hroute, htd]
    norm_num
    rw [ceilNat_eq 1 (by norm_num) (by norm_num)]
  have hinit : genInit routeShort =
      ⟨[], 33/2, 1,
       [⟨"sleeper", 8, 8, "Home terminal"⟩, ⟨"on-duty", 16, 1/2, "Pre-trip inspection"⟩],
       ⟨0, 8, 0, 1/2⟩, 0, 100, ["Started trip after 10-hour rest"], 0⟩ := by
    unfold genInit
    rw [htd]
    norm_num +decide [addSeg, addHours, addRemark]
  unfold generate_eld_logs
  rw [hfuel, hroute, hinit]
  norm_num +decide [genLoop_succ, genLoop_zero, genStep, hosRoll, stopBranch, dayRoll,
    driveSeg, addSeg, addHours, addRemark, fillSleep, fillOff, saveDay, genFinish,
    pickupDrive, elseDrive, pmod, avgSpeed, GenRes.state, dayShort1, rndEven]

set_option maxHeartbeats 4000000 in
theorem routeLong_logs : generate_eld_logs tdEx routeLong 0 = [dayLong1, dayLong2] := by
  have hroute : routeLong.restStops =
      [⟨"pickup", "pick", "pick", 1, 500, formatTime 11⟩,
       ⟨"dropoff", "drop", "drop", 1, 550, formatTime 11⟩] := by
    show planStops ⟨550, 500, "cur", "pick"⟩ "drop" 11 = _
    have hf : planFuel ⟨550, 500, "cur", "pick"⟩ = 2 := by
      unfold planFuel
      rw [ceilNat_eq 1 (by norm_num) (by norm_num)]
    unfold planStops
    rw [hf]
    norm_num [planLoop_succ, planLoop_zero, planStep, planBreak, planAdvance, planFuelStage,
      planPickStage, planRestStage, planDrive, planShift, pmod, pyInt, avgSpeed]
  have htd : routeLong.totalDistance = 550 := by
    show rndEven 550 = 550
    norm_num [rndEven]
  have hfuel : genFuel routeLong = 14 := by
    unfold genFuel
    rw [hroute, htd]
    norm_num
    rw [ceilNat_eq 1 (by norm_num) (by norm_num)]
  have hinit : genInit routeLong =
      ⟨[], 33/2, 1,
       [⟨"sleeper", 8, 8, "Home terminal"⟩, ⟨"on-duty", 16, 1/2, "Pre-trip inspection"⟩],
       ⟨0, 8, 0, 1/2⟩, 0, 550, ["Started trip after 10-hour rest"], 0⟩ := by
    unfold genInit
    rw [htd]
    norm_num +decide [addSeg, addHours, addRemark]
  unfold generate_eld_logs
  rw [hfuel, hroute, hinit]
  norm_num +decide [genLoop_succ, genLoop_zero, genStep, hosRoll, stopBranch, dayRoll,
    driveSeg, addSeg, addHours, addRemark, fillSleep, fillOff, saveDay, genFinish,
    pickupDrive, elseDrive, pmod, avgSpeed, GenRes.state, dayLong1, dayLong2, rndEven]

/-! ## C5 — short trips: symbolic single-iteration traces -/

/-- For a trip with `0 < D ≤ T ≤ 550` the planning loop runs exactly one
drive step and emits only the pickup stop, so the full sequence is a pickup
followed by the final dropoff. -/
theorem planStops_short {T D : ℚ} (cn pn dn : String) (dur : ℚ)
    (h0 : 0 < D) (h1 : D ≤ T) (h2 : T ≤ 550) :
    planStops ⟨T, D, cn, pn⟩ dn dur =
      [⟨"pickup", pn, pn, 1, pyInt D, formatTime (T / 50)⟩,
       ⟨"dropoff", dn, dn, 1, pyInt T, formatTime dur⟩] := by
  have hT : 0 < T := lt_of_lt_of_le h0 h1
  have hps : planShift 0 = 11 := by
    unfold planShift
    rw [pmod_zero, pmod_zero]
    rw [min_eq_left (by norm_num : (11 : ℚ) - 0 ≤ 14 - 0)]
    norm_num
  have hdrv : planDrive ⟨T, D, cn, pn⟩ ⟨[], 0, 0⟩ = T := by
    unfold planDrive avgSpeed
    dsimp only
    rw [hps]
    rw [show (11 : ℚ) * 50 = 550 from by norm_num, sub_zero, min_eq_right h2, min_eq_left h2]
  have hbrk : planBreak ⟨T, D, cn, pn⟩ ⟨[], 0, 0⟩ = ⟨[], 0, 0⟩ := by
    unfold planBreak
    dsimp only
    rw [if_neg (fun hcon => absurd hcon.1 (lt_irrefl 0))]
  have hadv : planAdvance ⟨T, D, cn, pn⟩ ⟨[], 0, 0⟩ = ⟨[], T, T / 50⟩ := by
    unfold planAdvance avgSpeed
    dsimp only
    rw [hdrv]
    norm_num
  have hfu : planFuelStage ⟨T, D, cn, pn⟩ 0 ⟨[], T, T / 50⟩ = ⟨[], T, T / 50⟩ := by
    have hf1 : (⌊T / 1000⌋ : ℤ) = 0 := by
      rw [Int.floor_eq_zero_iff, Set.mem_Ico]
      constructor
      · exact div_nonneg hT.le (by norm_num)
      · rw [div_lt_one (by norm_num)]; linarith
    have hcond : ¬(⌊(0 : ℚ) / 1000⌋ < ⌊T / 1000⌋) := by
      rw [hf1]
      norm_num
    unfold planFuelStage
    dsimp only
    rw [if_neg hcond]
  have hpk : planPickStage ⟨T, D, cn, pn⟩ 0 ⟨[], T, T / 50⟩ =
      ⟨[⟨"pickup", pn, pn, 1, pyInt D, formatTime (T / 50)⟩], T, T / 50 + 1⟩ := by
    unfold planPickStage
    dsimp only
    rw [if_pos ⟨h1, h0⟩]
    rfl
  have hrs : planRestStage ⟨T, D, cn, pn⟩
      ⟨[⟨"pickup", pn, pn, 1, pyInt D, formatTime (T / 50)⟩], T, T / 50 + 1⟩ =
      ⟨[⟨"pickup", pn, pn, 1, pyInt D, formatTime (T / 50)⟩], T, T / 50 + 1⟩ := by
    unfold planRestStage
    dsimp only
    rw [if_neg (fun hcon => absurd hcon.2 (lt_irrefl T))]
  have hstep : planStep ⟨T, D, cn, pn⟩ ⟨[], 0, 0⟩ =
      ⟨[⟨"pickup", pn, pn, 1, pyInt D, formatTime (T / 50)⟩], T, T / 50 + 1⟩ := by
    unfold planStep
    dsimp only
    rw [hbrk, hadv, hfu, hpk, hrs]
  have hfuel : planFuel ⟨T, D, cn, pn⟩ = 2 := by
    unfold planFuel
    dsimp only
    rw [ceilNat_eq 1
      (by have := div_pos hT (show (0 : ℚ) < 550 by norm_num); push_cast; linarith)
      (by push_cast; rw [div_le_one (by norm_num)]; linarith)]
  unfold planStops
  rw [hfuel]
  rw [show (2 : ℕ) = 1 + 1 from rfl, planLoop_succ]
  dsimp only
  rw [if_pos hT, hstep, planLoop_stop (fun hcon => absurd hcon (lt_irrefl T)) 1]
  dsimp only
  rfl

/-- `add_segment` in the no-truncation case, written as an explicit record. -/
theorem addSeg_fit_eq (s : GenState) (st : String) (d : ℚ) (loc : String)
    (h : ¬ 24 < s.ch + d) :
    addSeg s st d loc =
      ⟨s.logs, s.ch + d, s.day, s.segs ++ [⟨st, s.ch, d, loc⟩], addHours s.dh st d,
       s.tmd, s.rem, s.rks, s.idx⟩ := by
  unfold addSeg
  rw [if_neg h]

theorem addHours_offDuty_eq (dh : Hours) (d : ℚ) :
    addHours dh "off-duty" d = ⟨dh.off + d, dh.sleeper, dh.driving, dh.onDuty⟩ := by
  unfold addHours
  rw [if_pos rfl]

theorem addHours_sleeper_eq (dh : Hours) (d : ℚ) :
    addHours dh "sleeper" d = ⟨dh.off, dh.sleeper + d, dh.driving, dh.onDuty⟩ := by
  unfold addHours
  rw [if_neg (by decide), if_pos rfl]

theorem addHours_driving_eq (dh : Hours) (d : ℚ) :
    addHours dh "driving" d = ⟨dh.off, dh.sleeper, dh.driving + d, dh.onDuty⟩ := by
  unfold addHours
  rw [if_neg (by decide), if_neg (by decide), if_pos rfl]

theorem addHours_onDuty_eq (dh : Hours) (d : ℚ) :
    addHours dh "on-duty" d = ⟨dh.off, dh.sleeper, dh.driving, dh.onDuty + d⟩ := by
  unfold addHours
  rw [if_neg (by decide), if_neg (by decide), if_neg (by decide)]

theorem driveSeg_pos_eq (s : GenState) (d : ℚ) (loc : String) (hd : 0 < d)
    (h : ¬ 24 < s.ch + d) :
    driveSeg s d loc =
      ⟨s.logs, s.ch + d, s.day, s.segs ++ [⟨"driving", s.ch, d, loc⟩],
       addHours s.dh "driving" d, s.tmd + d * 50, s.rem - d * 50, s.rks, s.idx⟩ := by
  unfold driveSeg avgSpeed
  rw [if_pos hd, addSeg_fit_eq _ _ _ _ h]

/-- The generator, run on a route whose stops are a pickup and a dropoff and
whose (rounded) total distance is positive and below 250 miles, finishes the
whole trip on day 1 and emits exactly one DailyLog. -/
theorem gen_two_stop_short (t : TripData) (b : ℤ) (route : RouteData) (st0 st1 : Stop)
    (hs : route.restStops = [st0, st1])
    (h0 : st0.type = "pickup") (h1 : st1.type = "dropoff")
    (hp : 0 < ((route.totalDistance : ℤ) : ℚ)) (hl : ((route.totalDistance : ℤ) : ℚ) < 250) :
    (generate_eld_logs t route b).length = 1 := by
  obtain ⟨R, hR, hp2, hl2⟩ :
      ∃ R : ℚ, ((route.totalDistance : ℤ) : ℚ) = R ∧ 0 < R ∧ R < 250 :=
    ⟨_, rfl, hp, hl⟩
  have h5 : R / 50 < 5 := by linarith
  have hr0 : 0 < R / 50 := div_pos hp2 (by norm_num)
  have hfuel : genFuel route = 14 := by
    unfold genFuel
    rw [hs, hR]
    rw [ceilNat_eq 1
      (by have := div_pos hp2 (show (0 : ℚ) < 550 by norm_num); push_cast; linarith)
      (by push_cast; rw [div_le_one (by norm_num)]; linarith)]
    rfl
  have hinit : genInit route =
      ⟨[], 33/2, 1,
       [⟨"sleeper", 8, 8, "Home terminal"⟩, ⟨"on-duty", 16, 1/2, "Pre-trip inspection"⟩],
       ⟨0, 8, 0, 1/2⟩, 0, R, ["Started trip after 10-hour rest"], 0⟩ := by
    unfold genInit
    rw [hR]
    norm_num +decide [addSeg, addHours, addRemark]
  have hpd1 : pickupDrive ⟨[], 33/2, 1,
      [⟨"sleeper", 8, 8, "Home terminal"⟩, ⟨"on-duty", 16, 1/2, "Pre-trip inspection"⟩],
      ⟨0, 8, 0, 1/2⟩, 0, R, ["Started trip after 10-hour rest"], 0 + 1⟩ = R / 50 := by
    unfold pickupDrive avgSpeed
    dsimp only
    rw [min_eq_left (by linarith : R / 50 ≤ 11 - 0),
        min_eq_left (by linarith : R / 50 ≤ 14 - (0 + 1/2))]
  simp only [generate_eld_logs]
  rw [hs, hfuel, hinit]
  rw [show (14 : ℕ) = 13 + 1 from rfl, genLoop_succ]
  try dsimp only
  rw [if_pos (Or.inl hp2)]
  unfold genStep
  try dsimp only
  rw [if_neg (show ¬((11 : ℚ) ≤ 0 ∨ (14 : ℚ) ≤ 0 + 1/2) from by norm_num)]
  rw [dif_pos (show 0 < [st0, st1].length from by simp)]
  dsimp only [List.get]
  unfold stopBranch
  rw [h0]
  rw [if_pos (Or.inl (rfl : ("pickup" : String) = "pickup"))]
  rw [if_pos (rfl : ("pickup" : String) = "pickup")]
  rw [if_pos (rfl : ("pickup" : String) = "pickup")]
  try dsimp only
  rw [hpd1]
  rw [driveSeg_pos_eq _ _ _ hr0 (by dsimp only; push_neg; linarith)]
  rw [addHours_driving_eq]
  try dsimp only
  rw [show R - R / 50 * 50 = 0 from by ring]
  rw [addSeg_fit_eq _ _ _ _ (by dsimp only; push_neg; linarith)]
  rw [addHours_onDuty_eq]
  unfold addRemark
  try dsimp only
  unfold dayRoll
  try dsimp only
  rw [if_neg (show ¬((47 : ℚ)/2 ≤ 33/2 + R/50 + 1) from by push_neg; linarith)]
  rw [show (13 : ℕ) = 12 + 1 from rfl, genLoop_succ]
  try dsimp only
  rw [if_pos (Or.inr (show 0 + 1 < [st0, st1].length from by simp))]
  unfold genStep
  try dsimp only
  rw [if_neg (show ¬((11 : ℚ) ≤ 0 + R/50 ∨ (14 : ℚ) ≤ 0 + R/50 + (1/2 + 1)) from by
    push_neg; constructor <;> linarith)]
  rw [dif_pos (show 0 + 1 < [st0, st1].length from by simp)]
  simp only [List.get_cons_succ, List.get_cons_zero]
  try dsimp only [List.get]
  unfold stopBranch
  rw [h1]
  rw [if_pos (Or.inr (rfl : ("dropoff" : String) = "dropoff"))]
  rw [if_neg (show ¬(("dropoff" : String) = "pickup") from by decide)]
  rw [if_neg (show ¬(("dropoff" : String) = "pickup") from by decide)]
  try dsimp only
  unfold pickupDrive avgSpeed
  try dsimp only
  rw [zero_div]
  rw [min_eq_left (show (0 : ℚ) ≤ 11 - (0 + R/50) from by linarith)]
  rw [min_eq_left (show (0 : ℚ) ≤ 14 - (0 + R/50 + (1/2 + 1)) from by linarith)]
  unfold driveSeg
  rw [if_neg (lt_irrefl 0)]
  rw [addSeg_fit_eq _ _ _ _ (by dsimp only; push_neg; linarith)]
  rw [addHours_onDuty_eq]
  unfold addRemark
  try dsimp only
  unfold dayRoll
  try dsimp only
  rw [if_neg (show ¬((47 : ℚ)/2 ≤ 33/2 + R/50 + 1 + 1) from by push_neg; linarith)]
  rw [show (12 : ℕ) = 11 + 1 from rfl, genLoop_succ]
  try dsimp only
  rw [if_neg (show ¬((0 : ℚ) < 0 ∨ 0 + 1 + 1 < [st0, st1].length) from by
    push_neg; refine ⟨le_refl 0, by simp⟩)]
  rw [Option.getD_some]
  unfold genFinish
  try dsimp only
  simp only [List.cons_append, List.nil_append, List.isEmpty_cons, Bool.false_eq_true, if_false]
  rw [if_pos (show (33 : ℚ)/2 + R/50 + 1 + 1 ≤ 47/2 from by linarith)]
  rw [addSeg_fit_eq _ _ _ _ (by dsimp only; push_neg; linarith)]
  rw [addHours_onDuty_eq]
  unfold fillOff
  try dsimp only
  rw [if_pos (show (33 : ℚ)/2 + R/50 + 1 + 1 + 1/2 < 24 from by linarith)]
  rw [addSeg_fit_eq _ _ _ _ (by dsimp only; push_neg; linarith)]
  rw [addHours_offDuty_eq]
  unfold addRemark saveDay
  try dsimp only
  simp


/-- C5 (counterexample): the 550-mile trip `routeLong` completes within 11
driving hours (550 mi / 50 mph = 11 h ≤ 11) and is under 1000 miles, and its
stop sequence is exactly a pickup and a dropoff — yet `generate_eld_logs`
produces two DailyLogs, not one: the dropoff stop pushes the day clock past
23.5 h, forcing a day rollover before the final day is saved. -/
theorem short_trip_one_day_cex :
    ((550 : ℚ) / avgSpeed ≤ 11 ∧ (550 : ℚ) < 1000) ∧
    routeLong.restStops.map Stop.type = ["pickup", "dropoff"] ∧
    (generate_eld_logs tdEx routeLong 0).length = 2 ∧
    (generate_eld_logs tdEx routeLong 0).length ≠ 1 := by
  refine ⟨⟨by norm_num [avgSpeed], by norm_num⟩, ?_, ?_, ?_⟩
  · show (planStops ⟨550, 500, "cur", "pick"⟩ "drop" 11).map Stop.type = _
    rw [planStops_short "cur" "pick" "drop" 11 (by norm_num) (by norm_num) (by norm_num)]
    rfl
  · rw [routeLong_logs]
    rfl
  · rw [routeLong_logs]
    simp

/-- C5 (amended): for any trip with `0 < distance_to_pickup ≤ total ≤ 550`
(so it fits in one 11-hour driving shift and crosses no 1000-mile fuel
boundary) the planner emits exactly a pickup followed by a dropoff stop; and
if moreover the rounded total distance is positive and under 250 miles, the
generator produces exactly one DailyLog (at 250 miles or more the day clock
reaches 23.5 h and a second day is opened, see the counterexample). -/
theorem short_trip_amended (cC pC dC : Coordinate) (geo : List Coordinate)
    (T dur D : ℚ) (t : TripData) (b : ℤ)
    (h0 : 0 < D) (h1 : D ≤ T) (h2 : T ≤ 550) :
    (plan_route_core cC pC dC geo T dur D).restStops.map Stop.type = ["pickup", "dropoff"] ∧
    (0 < ((rndEven T : ℤ) : ℚ) → ((rndEven T : ℤ) : ℚ) < 250 →
      (generate_eld_logs t (plan_route_core cC pC dC geo T dur D) b).length = 1) := by
  have hstops : (plan_route_core cC pC dC geo T dur D).restStops =
      [⟨"pickup", pC.name, pC.name, 1, pyInt D, formatTime (T / 50)⟩,
       ⟨"dropoff", dC.name, dC.name, 1, pyInt T, formatTime dur⟩] := by
    show planStops ⟨T, D, cC.name, pC.name⟩ dC.name dur = _
    exact planStops_short _ _ _ _ h0 h1 h2
  refine ⟨by rw [hstops]; rfl, fun hp hl => ?_⟩
  exact gen_two_stop_short t b _ _ _ hstops rfl rfl hp hl

theorem short_trip_amended_witness :
    routeShort.restStops.map Stop.type = ["pickup", "dropoff"] ∧
    (generate_eld_logs tdEx routeShort 0).length = 1 := by
  have h := short_trip_amended ⟨1, 1, "cur"⟩ ⟨2, 2, "pick"⟩ ⟨3, 3, "drop"⟩ [] 100 2 50 tdEx 0
    (by norm_num) (by norm_num) (by norm_num)
  exact ⟨h.1, h.2 (by norm_num [rndEven]) (by norm_num [rndEven])⟩


/-- C4: in every DailyLog produced by `generate_eld_logs`, the segment
durations sum to at most 24 hours; and whenever `add_segment` is asked for a
duration that would push the day clock past hour 24, the clock is set to
exactly 24 and any segment actually appended ends exactly at hour 24 with the
truncated duration `24 - current_hour`. -/
theorem daily_hours_capped (t : TripData) (route : RouteData) (base : ℤ) :
    (∀ L ∈ generate_eld_logs t route base, segsSum L.segments ≤ 24) ∧
    (∀ (s : GenState) (st : String) (d : ℚ) (loc : String),
      24 < s.ch + d →
        (addSeg s st d loc).ch = 24 ∧
        ∀ sg ∈ (addSeg s st d loc).segs,
          sg ∈ s.segs ∨ (sg.startHour + sg.duration = 24 ∧ sg.duration = 24 - s.ch)) := by
  constructor
  · intro L hL
    obtain ⟨-, hchain, -, -, -, -⟩ := (generate_good t route base).1 L hL
    have hs := chainFrom_sum hchain
    have hd := dayStart_nonneg L.dayNumber
    linarith
  · intro s st d loc hover
    unfold addSeg
    rw [if_pos hover]
    by_cases hpos : 0 < 24 - s.ch
    · rw [if_pos hpos]
      refine ⟨rfl, ?_⟩
      intro sg hsg
      rcases List.mem_append.mp hsg with h | h
      · exact Or.inl h
      · rcases List.mem_singleton.mp h with rfl
        exact Or.inr ⟨by ring, rfl⟩
    · rw [if_neg hpos]
      exact ⟨rfl, fun sg hsg => Or.inl hsg⟩

theorem daily_hours_capped_witness :
    segsSum dayShort1.segments ≤ 24 ∧
    (addSeg ⟨[], 20, 1, [], ⟨0, 0, 0, 0⟩, 0, 0, [], 0⟩ "driving" 10 "x").ch = 24 := by
  constructor
  · exact (daily_hours_capped tdEx routeShort 0).1 dayShort1
      (by rw [routeShort_logs]; exact List.mem_cons_self _ _)
  · exact ((daily_hours_capped tdEx routeShort 0).2
      ⟨[], 20, 1, [], ⟨0, 0, 0, 0⟩, 0, 0, [], 0⟩ "driving" 10 "x"
      (show (24 : ℚ) < 20 + 10 by norm_num)).1

/-- C6: within each DailyLog the segments are contiguous (each segment's
start plus duration equals the next segment's start), and the first segment
of every day other than day 1 starts at hour 0. -/
theorem segments_contiguous (t : TripData) (route : RouteData) (base : ℤ) :
    ∀ L ∈ generate_eld_logs t route base,
      List.Chain' (fun x y => x.startHour + x.duration = y.startHour) L.segments ∧
      (L.dayNumber ≠ 1 → (L.segments.head?).map Seg.startHour = some 0) := by
  intro L hL
  obtain ⟨hne, hchain, -, -, -, -⟩ := (generate_good t route base).1 L hL
  refine ⟨chainFrom_chain' hchain, fun hd1 => ?_⟩
  have hds : dayStart L.dayNumber = 0 := if_neg hd1
  cases hseg : L.segments with
  | nil => exact absurd hseg hne
  | cons sg rest =>
    have h1 : sg.startHour = dayStart L.dayNumber := chainFrom_head (hseg ▸ hchain)
    simp [h1, hds]

theorem segments_contiguous_witness :
    (dayLong2.segments.head?).map Seg.startHour = some 0 :=
  (segments_contiguous tdEx routeLong 0 dayLong2
    (by rw [routeLong_logs]; exact List.mem_cons_of_mem _ (List.mem_cons_self _ _))).2
    (by decide)

/-- C9: the first DailyLog of every `generate_eld_logs` output spans exactly
hour 8 to hour 24 of day 1 (its segments form a contiguous chain from 8 to
24 and the first starts at 8), so its four per-status hour totals sum to
exactly 16, not 24. -/
theorem first_day_spans_8_to_24 (t : TripData) (route : RouteData) (base : ℤ) :
    ∃ L rest, generate_eld_logs t route base = L :: rest ∧
      L.dayNumber = 1 ∧
      (L.segments.head?).map Seg.startHour = some 8 ∧
      chainFrom 8 L.segments 24 ∧
      L.hours.off + L.hours.sleeper + L.hours.driving + L.hours.onDuty = 16 := by
  obtain ⟨hgood, hnum, hne⟩ := generate_good t route base
  obtain ⟨L, rest, hcons⟩ := List.exists_cons_of_ne_nil hne
  refine ⟨L, rest, hcons, ?_⟩
  obtain ⟨hne', hchain, -, -, -, hsum⟩ :=
    hgood L (by rw [hcons]; exact List.mem_cons_self _ _)
  have hd1 : L.dayNumber = 1 := by
    rw [hcons] at hnum
    simp only [List.map_cons, List.length_cons, List.range'_succ, List.cons.injEq] at hnum
    exact hnum.1
  have hds : dayStart L.dayNumber = 8 := by rw [hd1]; rfl
  rw [hds] at hchain hsum
  refine ⟨hd1, ?_, hchain, ?_⟩
  · cases hseg : L.segments with
    | nil => exact absurd hseg hne'
    | cons sg r2 =>
      have h1 : sg.startHour = 8 := chainFrom_head (hseg ▸ hchain)
      simp [h1]
  · have h16 : hoursSum L.hours = 16 := by rw [hsum]; norm_num
    unfold hoursSum at h16
    exact h16

/-! ## C7 — termination measure for the generator loop -/

/-- Day-state weight: 2 if an HOS rollover is due, 1 if the day state is
fresh, 2 if a mandatory-rest threshold has been reached, 3 otherwise. -/
def kappa (dh : Hours) : ℕ :=
  if 11 ≤ dh.driving ∨ 14 ≤ dh.driving + dh.onDuty then 2
  else if dh.driving = 0 ∧ dh.onDuty ≤ 1/2 then 1
  else if 27/2 ≤ dh.driving + dh.onDuty then 2
  else 3

/-- Termination measure for the `generate_eld_logs` loop. -/
def genMeas (stops : List Stop) (s : GenState) : ℕ :=
  4 * (stops.length - s.idx) + 4 * ceilNat (s.rem / 550) + kappa s.dh

theorem kappa_pos (dh : Hours) : 1 ≤ kappa dh := by
  unfold kappa; split_ifs <;> norm_num

theorem kappa_le_three (dh : Hours) : kappa dh ≤ 3 := by
  unfold kappa; split_ifs <;> norm_num

theorem kappa_sleep10 : kappa ⟨0, 10, 0, 0⟩ = 1 := by
  unfold kappa
  norm_num

theorem driveSeg_pos_dh (s : GenState) {d : ℚ} (loc : String) (h : 0 < d) :
    (driveSeg s d loc).dh = (addSeg s "driving" d loc).dh := by
  unfold driveSeg
  rw [if_pos h]

theorem driveSeg_pos_ch (s : GenState) {d : ℚ} (loc : String) (h : 0 < d) :
    (driveSeg s d loc).ch = (addSeg s "driving" d loc).ch := by
  unfold driveSeg
  rw [if_pos h]

theorem fillSleep_rem (s : GenState) : (fillSleep s).rem = s.rem := by
  unfold fillSleep; split_ifs
  · rw [addSeg_rem]
  · rfl

theorem fillSleep_idx (s : GenState) : (fillSleep s).idx = s.idx := by
  unfold fillSleep; split_ifs
  · rw [addSeg_idx]
  · rfl

theorem hosRoll_rem_eq (b : ℤ) (s : GenState) : (hosRoll b s).rem = s.rem := by
  unfold hosRoll
  rw [addSeg_rem, addSeg_rem, saveDay_rem, fillSleep_rem, addSeg_rem]

theorem hosRoll_idx_eq (b : ℤ) (s : GenState) : (hosRoll b s).idx = s.idx := by
  unfold hosRoll
  rw [addSeg_idx, addSeg_idx, saveDay_idx, fillSleep_idx, addSeg_idx]

theorem hosRoll_dh_eq (b : ℤ) (s : GenState) : (hosRoll b s).dh = ⟨0, 10, 0, 1/2⟩ := by
  unfold hosRoll
  rw [addSeg_dh_of_fit (by rw [addSeg_ch, saveDay_ch]; norm_num)]
  rw [addSeg_dh_of_fit (by rw [saveDay_ch]; norm_num)]
  rw [saveDay_dh, addHours_sleeper_eq, addHours_onDuty_eq]
  norm_num

theorem dayRoll_rem_eq (b : ℤ) (s : GenState) : (dayRoll b s).rem = s.rem := by
  unfold dayRoll
  split_ifs
  · rw [addSeg_rem, saveDay_rem, addSeg_rem]
  · rfl

theorem dayRoll_idx_eq (b : ℤ) (s : GenState) : (dayRoll b s).idx = s.idx := by
  unfold dayRoll
  split_ifs
  · rw [addSeg_idx, saveDay_idx, addSeg_idx]
  · rfl

theorem dayRoll_dh_roll {b : ℤ} {s : GenState} (h : 47/2 ≤ s.ch) :
    (dayRoll b s).dh = ⟨0, 10, 0, 0⟩ := by
  unfold dayRoll
  rw [if_pos h]
  rw [addSeg_dh_of_fit (by rw [saveDay_ch]; norm_num)]
  rw [saveDay_dh, addHours_sleeper_eq]
  norm_num

theorem dayRoll_dh_stay {b : ℤ} {s : GenState} (h : ¬(47/2 ≤ s.ch)) :
    (dayRoll b s).dh = s.dh := by
  unfold dayRoll
  rw [if_neg h]

theorem stopBranch_rem_le2 (b : ℤ) (stop : Stop) (s0 : GenState) :
    (stopBranch b stop s0).rem ≤ s0.rem := by
  unfold stopBranch
  split_ifs <;>
    first
      | (rw [addRemark_rem, addSeg_rem]; exact driveSeg_rem_le _ _ _)
      | (rw [addSeg_rem, saveDay_rem, fillSleep_rem])
      | exact le_refl _

theorem stopBranch_idx_eq (b : ℤ) (stop : Stop) (s0 : GenState) :
    (stopBranch b stop s0).idx = s0.idx := by
  unfold stopBranch
  split_ifs <;>
    first
      | (rw [addRemark_idx, addSeg_idx, driveSeg_idx])
      | (rw [addSeg_idx, saveDay_idx, fillSleep_idx])
      | rfl

/-- Every iteration of the generator loop that continues strictly decreases
the measure `genMeas`. -/
theorem genStep_meas (b : ℤ) (stops : List Stop) (s : GenState)
    (hcond : 0 < s.rem ∨ s.idx < stops.length) :
    (∃ s2, genStep b stops s = .brk s2) ∨
    (∃ s2, genStep b stops s = .cont s2 ∧ genMeas stops s2 < genMeas stops s) := by
  unfold genStep
  split_ifs with hH hJ hE
  · -- forced HOS rollover: κ drops from 2 to 1
    right
    refine ⟨_, rfl, ?_⟩
    unfold genMeas
    rw [hosRoll_rem_eq, hosRoll_idx_eq, hosRoll_dh_eq]
    have hk2 : kappa s.dh = 2 := by unfold kappa; rw [if_pos hH]
    have hk1 : kappa ⟨0, 10, 0, 1/2⟩ = 1 := by unfold kappa; norm_num
    rw [hk2, hk1]
    omega
  · -- stop branch: the stop index strictly advances
    right
    refine ⟨_, rfl, ?_⟩
    unfold genMeas
    have hidx : (dayRoll b (stopBranch b (stops.get ⟨s.idx, hJ⟩) { s with idx := s.idx + 1 })).idx
        = s.idx + 1 := by
      rw [dayRoll_idx_eq, stopBranch_idx_eq]
    have hrem : (dayRoll b (stopBranch b (stops.get ⟨s.idx, hJ⟩) { s with idx := s.idx + 1 })).rem
        ≤ s.rem := by
      rw [dayRoll_rem_eq]
      exact stopBranch_rem_le2 _ _ _
    have hceil : ceilNat ((dayRoll b (stopBranch b (stops.get ⟨s.idx, hJ⟩)
          { s with idx := s.idx + 1 })).rem / 550) ≤ ceilNat (s.rem / 550) :=
      ceilNat_mono (by linarith)
    have hk3 := kappa_le_three (dayRoll b (stopBranch b (stops.get ⟨s.idx, hJ⟩)
      { s with idx := s.idx + 1 })).dh
    have hk1 := kappa_pos s.dh
    rw [hidx]
    omega
  · -- stop-less drive: either the remaining distance reaches 0 or κ drops
    right
    refine ⟨_, rfl, ?_⟩
    push_neg at hH
    obtain ⟨h11, h14⟩ := hH
    have hrem0 : 0 < s.rem := hcond.resolve_right hJ
    have he : elseDrive s =
        min (min (s.rem / 50) (11 - s.dh.driving)) (14 - (s.dh.driving + s.dh.onDuty) - 1/2) :=
      rfl
    have hidx : (dayRoll b (driveSeg s (elseDrive s) "")).idx = s.idx := by
      rw [dayRoll_idx_eq, driveSeg_idx]
    have hrem : (dayRoll b (driveSeg s (elseDrive s) "")).rem = s.rem - elseDrive s * 50 := by
      rw [dayRoll_rem_eq, driveSeg_rem_pos _ _ hE]
      rfl
    have hkp := kappa_pos s.dh
    rcases le_or_lt (s.rem - elseDrive s * 50) 0 with hA | hB
    · -- the drive exhausts the remaining distance
      unfold genMeas
      rw [hidx, hrem]
      have hc0 : ceilNat ((s.rem - elseDrive s * 50) / 550) = 0 :=
        ceilNat_nonpos (by linarith)
      have hc1 : 1 ≤ ceilNat (s.rem / 550) := ceilNat_pos (by positivity)
      have hk3 := kappa_le_three (dayRoll b (driveSeg s (elseDrive s) "")).dh
      rw [hc0]
      omega
    · -- partial drive: the HOS cap or rest threshold is reached
      have hdlt : elseDrive s < s.rem / 50 := by
        rw [lt_div_iff₀ (by norm_num)]
        linarith
      have hble : elseDrive s ≤ 11 - s.dh.driving := by
        rw [he]
        exact le_trans (min_le_left _ _) (min_le_right _ _)
      have hcle : elseDrive s ≤ 14 - (s.dh.driving + s.dh.onDuty) - 1/2 := by
        rw [he]
        exact min_le_right _ _
      have hbc : elseDrive s = 11 - s.dh.driving ∨
          elseDrive s = 14 - (s.dh.driving + s.dh.onDuty) - 1/2 := by
        rcases min_choice (min (s.rem / 50) (11 - s.dh.driving))
            (14 - (s.dh.driving + s.dh.onDuty) - 1/2) with h | h
        · rcases min_choice (s.rem / 50) (11 - s.dh.driving) with h2 | h2
          · exfalso
            rw [he, h, h2] at hdlt
            exact absurd hdlt (lt_irrefl _)
          · left
            rw [he, h, h2]
        · right
          rw [he, h]
      have hk2 : kappa (dayRoll b (driveSeg s (elseDrive s) "")).dh ≤ 2 := by
        by_cases hroll : 47/2 ≤ (driveSeg s (elseDrive s) "").ch
        · rw [dayRoll_dh_roll hroll, kappa_sleep10]
          norm_num
        · rw [dayRoll_dh_stay hroll]
          by_cases htr : 24 < s.ch + elseDrive s
          · exfalso
            apply hroll
            rw [driveSeg_pos_ch _ _ hE, addSeg_ch, if_pos htr]
            norm_num
          · rw [driveSeg_pos_dh _ _ hE, addSeg_dh_of_fit htr, addHours_driving_eq]
            unfold kappa
            dsimp only
            rcases hbc with hb | hc
            · rw [if_pos (Or.inl (show (11 : ℚ) ≤ s.dh.driving + elseDrive s from by
                rw [hb]; linarith))]
            · split_ifs with hf1 hf2 hf3
              · norm_num
              · norm_num
              · norm_num
              · exact absurd (show (27 : ℚ)/2 ≤ s.dh.driving + elseDrive s + s.dh.onDuty from by
                  rw [hc]; linarith) hf3
      by_cases hfresh : s.dh.driving = 0 ∧ s.dh.onDuty ≤ 1/2
      · have hd11 : elseDrive s = 11 := by
          rcases hbc with hb | hc
          · rw [hb, hfresh.1]; norm_num
          · exfalso
            rw [hc, hfresh.1] at hble
            have := hfresh.2
            linarith
        have hrem550 : 550 < s.rem := by
          rw [hd11] at hB
          linarith
        have hceq : ceilNat ((s.rem - elseDrive s * 50) / 550) = ceilNat (s.rem / 550) - 1 := by
          rw [hd11, show (s.rem - 11 * 50) / 550 = s.rem / 550 - 1 from by ring]
          exact ceilNat_sub_one (by linarith)
        have hks : kappa s.dh = 1 := by
          unfold kappa
          rw [if_neg (by push_neg; exact ⟨h11, h14⟩), if_pos hfresh]
        have hc1 : 1 ≤ ceilNat (s.rem / 550) := ceilNat_pos (by positivity)
        unfold genMeas
        rw [hidx, hrem, hceq, hks]
        omega
      · have hnbp : ¬(27/2 ≤ s.dh.driving + s.dh.onDuty) := by
          intro hcon
          linarith
        have hks : kappa s.dh = 3 := by
          unfold kappa
          rw [if_neg (by push_neg; exact ⟨h11, h14⟩), if_neg hfresh, if_neg hnbp]
        have hceil : ceilNat ((s.rem - elseDrive s * 50) / 550) ≤ ceilNat (s.rem / 550) := by
          apply ceilNat_mono
          have h50 : 0 < elseDrive s * 50 := by
            have := hE
            nlinarith
          linarith
        unfold genMeas
        rw [hidx, hrem, hks]
        omega
  · left
    exact ⟨_, rfl⟩

/-- With fuel exceeding the measure, the generator loop finishes. -/
theorem genLoop_isSome (b : ℤ) (stops : List Stop) :
    ∀ (n : ℕ) (s : GenState), genMeas stops s < n → (genLoop b stops n s).isSome = true := by
  intro n
  induction n with
  | zero => intro s h; exact absurd h (Nat.not_lt_zero _)
  | succ n ih =>
    intro s h
    rw [genLoop_succ]
    split_ifs with hcond
    · rcases genStep_meas b stops s hcond with ⟨s2, hb⟩ | ⟨s2, hc, hm⟩
      · rw [hb]
        rfl
      · rw [hc]
        exact ih s2 (by omega)
    · rfl

def routeE : RouteData :=
  plan_route_core ⟨1, 1, "cur"⟩ ⟨2, 2, "pick"⟩ ⟨3, 3, "drop"⟩ [] 1200 24 600

set_option maxHeartbeats 4000000 in
theorem routeE_stops : routeE.restStops =
    [⟨"rest", "Overnight Rest (10 hours)", "550 mi from cur", 10, 550, "11:00"⟩,
     ⟨"fuel", "Fuel Stop", "500 mi from pick", 1/2, 1100, "11:00"⟩,
     ⟨"pickup", "pick", "pick", 1, 600, "11:30"⟩,
     ⟨"rest", "Overnight Rest (10 hours)", "500 mi from pick", 10, 1100, "12:30"⟩,
     ⟨"dropoff", "drop", "drop", 1, 1200, "24:00"⟩] := by
  show planStops ⟨1200, 600, "cur", "pick"⟩ "drop" 24 = _
  have hf : planFuel ⟨1200, 600, "cur", "pick"⟩ = 4 := by
    unfold planFuel
    rw [ceilNat_eq 3 (by norm_num) (by norm_num)]
  unfold planStops
  rw [hf]
  norm_num +decide [planLoop_succ, planLoop_zero, planStep, planBreak, planAdvance,
    planFuelStage, planPickStage, planRestStage, planDrive, planShift, pmod, pyInt,
    avgSpeed, locationAt, formatTime, pad2, rndEven]

set_option maxHeartbeats 8000000 in
/-- C7 (counterexample): on the 1200-mile route `routeE` the generator loop
reaches, after three iterations, a state with 650 miles remaining, stop index
3, and 11 driving hours logged; the fourth iteration is a forced HOS rollover
that continues the loop while leaving both the remaining distance and the
stop index unchanged — so the loop's progress is not always a strict decrease
of remaining distance or a strict advance of the stop index. -/
theorem gen_no_progress_cex :
    ∃ s1 s2 s3 s4 : GenState,
      genStep 0 routeE.restStops (genInit routeE) = .cont s1 ∧
      genStep 0 routeE.restStops s1 = .cont s2 ∧
      genStep 0 routeE.restStops s2 = .cont s3 ∧
      (0 < s3.rem ∨ s3.idx < routeE.restStops.length) ∧
      genStep 0 routeE.restStops s3 = .cont s4 ∧
      s4.rem = s3.rem ∧ s4.idx = s3.idx ∧ 0 < s4.rem := by
  have htd : ((routeE.totalDistance : ℤ) : ℚ) = 1200 := by
    show ((rndEven 1200 : ℤ) : ℚ) = 1200
    norm_num [rndEven]
  have hinit : genInit routeE =
      ⟨[], 33/2, 1,
       [⟨"sleeper", 8, 8, "Home terminal"⟩, ⟨"on-duty", 16, 1/2, "Pre-trip inspection"⟩],
       ⟨0, 8, 0, 1/2⟩, 0, 1200, ["Started trip after 10-hour rest"], 0⟩ := by
    unfold genInit
    rw [htd]
    norm_num +decide [addSeg, addHours, addRemark]
  refine ⟨⟨[⟨0, 1, ⟨0, 31/2, 0, 1/2⟩,
        [⟨"sleeper", 8, 8, "Home terminal"⟩, ⟨"on-duty", 16, 1/2, "Pre-trip inspection"⟩,
         ⟨"sleeper", 33/2, 15/2, "Rest area"⟩],
        ["Started trip after 10-hour rest"], 0⟩],
      10, 2, [⟨"sleeper", 0, 10, "Rest area"⟩], ⟨0, 10, 0, 0⟩, 0, 1200,
      ["Started trip after 10-hour rest"], 1⟩,
    ⟨[⟨0, 1, ⟨0, 31/2, 0, 1/2⟩,
        [⟨"sleeper", 8, 8, "Home terminal"⟩, ⟨"on-duty", 16, 1/2, "Pre-trip inspection"⟩,
         ⟨"sleeper", 33/2, 15/2, "Rest area"⟩],
        ["Started trip after 10-hour rest"], 0⟩],
      25/2, 2,
      [⟨"sleeper", 0, 10, "Rest area"⟩, ⟨"driving", 10, 2, ""⟩, ⟨"on-duty", 12, 1/2, "Fuel stop"⟩],
      ⟨0, 10, 2, 1/2⟩, 100, 1100, ["Started trip after 10-hour rest", "Fueling"], 2⟩,
    ⟨[⟨0, 1, ⟨0, 31/2, 0, 1/2⟩,
        [⟨"sleeper", 8, 8, "Home terminal"⟩, ⟨"on-duty", 16, 1/2, "Pre-trip inspection"⟩,
         ⟨"sleeper", 33/2, 15/2, "Rest area"⟩],
        ["Started trip after 10-hour rest"], 0⟩],
      45/2, 2,
      [⟨"sleeper", 0, 10, "Rest area"⟩, ⟨"driving", 10, 2, ""⟩, ⟨"on-duty", 12, 1/2, "Fuel stop"⟩,
       ⟨"driving", 25/2, 9, "En route to pick"⟩, ⟨"on-duty", 43/2, 1, "Pickup at pick"⟩],
      ⟨0, 10, 11, 3/2⟩, 550, 650, ["Started trip after 10-hour rest", "Fueling", "Pickup: pick"], 3⟩,
    ⟨[⟨0, 1, ⟨0, 31/2, 0, 1/2⟩,
        [⟨"sleeper", 8, 8, "Home terminal"⟩, ⟨"on-duty", 16, 1/2, "Pre-trip inspection"⟩,
         ⟨"sleeper", 33/2, 15/2, "Rest area"⟩],
        ["Started trip after 10-hour rest"], 0⟩,
      ⟨1, 2, ⟨0, 11, 11, 2⟩,
        [⟨"sleeper", 0, 10, "Rest area"⟩, ⟨"driving", 10, 2, ""⟩, ⟨"on-duty", 12, 1/2, "Fuel stop"⟩,
         ⟨"driving", 25/2, 9, "En route to pick"⟩, ⟨"on-duty", 43/2, 1, "Pickup at pick"⟩,
         ⟨"on-duty", 45/2, 1/2, "Post-trip inspection"⟩, ⟨"sleeper", 23, 1, "Rest area"⟩],
        ["Started trip after 10-hour rest", "Fueling", "Pickup: pick"], 550⟩],
      21/2, 3,
      [⟨"sleeper", 0, 10, "Rest area"⟩, ⟨"on-duty", 10, 1/2, "Pre-trip inspection"⟩],
      ⟨0, 10, 0, 1/2⟩, 0, 650, ["Started trip after 10-hour rest", "Fueling", "Pickup: pick"], 3⟩,
    ?_, ?_, ?_, ?_, ?_, by norm_num, by norm_num, by norm_num⟩
  · rw [hinit, routeE_stops]
    norm_num +decide [genStep, stopBranch, pickupDrive, driveSeg, addSeg, addHours,
      addRemark, dayRoll, saveDay, fillSleep, hosRoll, elseDrive, avgSpeed, rndEven]
  · rw [routeE_stops]
    norm_num +decide [genStep, stopBranch, pickupDrive, driveSeg, addSeg, addHours,
      addRemark, dayRoll, saveDay, fillSleep, hosRoll, elseDrive, avgSpeed, rndEven]
  · rw [routeE_stops]
    norm_num +decide [genStep, stopBranch, pickupDrive, driveSeg, addSeg, addHours,
      addRemark, dayRoll, saveDay, fillSleep, hosRoll, elseDrive, avgSpeed, rndEven]
  · rw [routeE_stops]
    norm_num
  · rw [routeE_stops]
    norm_num +decide [genStep, stopBranch, pickupDrive, driveSeg, addSeg, addHours,
      addRemark, dayRoll, saveDay, fillSleep, hosRoll, elseDrive, avgSpeed, rndEven]

/-- C7 (amended): both loops do terminate, but the generator loop's progress
argument needs a three-part measure, not the claimed progress variables: the
planner loop strictly advances miles covered and completes within its
iteration bound, and the generator loop always finishes within `genFuel`
iterations because each continuing iteration decreases
`4*(stops remaining) + 4*⌈remaining miles/550⌉ + κ(day state)`. -/
theorem loops_terminate_amended :
    (∀ (cfg : PlanCfg) (s : PlanState), s.m < cfg.total → s.m < (planStep cfg s).m) ∧
    (∀ cfg : PlanCfg, 0 < cfg.total →
      (planLoop cfg (planFuel cfg) ⟨[], 0, 0⟩).m = cfg.total) ∧
    (∀ (route : RouteData) (b : ℤ),
      (genLoop b route.restStops (genFuel route) (genInit route)).isSome = true) := by
  refine ⟨fun cfg s h => planStep_advances h, fun cfg h => planFinal_m h,
    fun route b => ?_⟩
  apply genLoop_isSome
  have hinit : genInit route =
      ⟨[], 33/2, 1,
       [⟨"sleeper", 8, 8, "Home terminal"⟩, ⟨"on-duty", 16, 1/2, "Pre-trip inspection"⟩],
       ⟨0, 8, 0, 1/2⟩, 0, ((route.totalDistance : ℤ) : ℚ),
       ["Started trip after 10-hour rest"], 0⟩ := by
    unfold genInit
    norm_num +decide [addSeg, addHours, addRemark]
  rw [hinit]
  unfold genMeas genFuel kappa
  dsimp only
  rw [if_neg (by norm_num), if_pos (by norm_num)]
  omega

theorem loops_terminate_amended_witness :
    (⟨[], 0, 0⟩ : PlanState).m < (planStep ⟨100, 50, "a", "c"⟩ ⟨[], 0, 0⟩).m ∧
    (planLoop ⟨100, 50, "a", "c"⟩ (planFuel ⟨100, 50, "a", "c"⟩) ⟨[], 0, 0⟩).m =
      (⟨100, 50, "a", "c"⟩ : PlanCfg).total := by
  constructor
  · exact loops_terminate_amended.1 ⟨100, 50, "a", "c"⟩ ⟨[], 0, 0⟩
      (show (0 : ℚ) < 100 from by norm_num)
  · exact loops_terminate_amended.2.1 ⟨100, 50, "a", "c"⟩ (show (0 : ℚ) < 100 from by norm_num)

/-! ## C1 — rolling-window caps over the absolute timeline -/

/-- Length of the overlap of the half-open intervals `[a,b)` and `[c,d)`. -/
def ov (a b c d : ℚ) : ℚ := max 0 (min b d - max a c)

/-- Window overlap of one segment placed at absolute offset `o`. -/
def segOv (o c d : ℚ) (sg : Seg) : ℚ :=
  ov (o + sg.startHour) (o + (sg.startHour + sg.duration)) c d

/-- Ordered, pairwise-disjoint intervals between `lo` and `hi`. -/
def ordIn : ℚ → List Seg → ℚ → Prop
  | lo, [], hi => lo ≤ hi
  | lo, sg :: rest, hi =>
      lo ≤ sg.startHour ∧ 0 ≤ sg.duration ∧ ordIn (sg.startHour + sg.duration) rest hi

/-- Total driving time of the whole output falling inside the window
`[t, t+14)` of the absolute (cross-day) timeline. -/
def drivingInWindow (logs : List DailyLog) (t : ℚ) : ℚ :=
  (logs.map (fun L =>
    ((L.segments.filter (fun sg => sg.status == "driving")).map
      (segOv (24 * ((L.dayNumber : ℚ) - 1)) t (t + 14))).sum)).sum

/-- Total on-duty (driving + on-duty) time of the whole output falling inside
the window `[t, t+14)` of the absolute timeline. -/
def dutyInWindow (logs : List DailyLog) (t : ℚ) : ℚ :=
  (logs.map (fun L =>
    ((L.segments.filter (fun sg => sg.status == "driving" || sg.status == "on-duty")).map
      (segOv (24 * ((L.dayNumber : ℚ) - 1)) t (t + 14))).sum)).sum

theorem ov_nonneg (a b c d : ℚ) : 0 ≤ ov a b c d := le_max_left 0 _

theorem ov_le_dur {a b : ℚ} (c d : ℚ) (h : a ≤ b) : ov a b c d ≤ b - a := by
  unfold ov
  apply max_le
  · linarith
  · have h1 : min b d ≤ b := min_le_left _ _
    have h2 : a ≤ max a c := le_max_left _ _
    linarith

theorem ov_superadd {v c d u w x : ℚ} (h1 : x ≤ u) (h2 : u ≤ v) (h3 : v ≤ w) :
    ov u v c d + ov v w c d ≤ ov x w c d := by
  unfold ov
  simp only [max_def, min_def]
  split_ifs <;> linarith

theorem ordIn_le {hi : ℚ} : ∀ {l : List Seg} {lo : ℚ}, ordIn lo l hi → lo ≤ hi := by
  intro l
  induction l with
  | nil => intro lo h; exact h
  | cons sg rest ih =>
    rintro lo ⟨h1, h2, h3⟩
    have := ih h3
    linarith

theorem chainFrom_start_ge {z : ℚ} :
    ∀ {l : List Seg} {a : ℚ}, chainFrom a l z → ∀ sg ∈ l, a ≤ sg.startHour := by
  intro l
  induction l with
  | nil => intro a _ sg h; exact absurd h (List.not_mem_nil sg)
  | cons sg0 rest ih =>
    rintro a ⟨h1, h2, h3⟩ sg hm
    rcases List.mem_cons.mp hm with rfl | hm2
    · exact le_of_eq h1.symm
    · have := ih h3 sg hm2
      linarith

theorem filtered_ordIn (p : Seg → Bool) {z : ℚ} :
    ∀ {l : List Seg} {a m : ℚ}, chainFrom a l z →
      (∀ sg ∈ l, p sg = true → m ≤ sg.startHour) → m ≤ z →
      ordIn m (l.filter p) z := by
  intro l
  induction l with
  | nil => intro a m _ _ hmz; exact hmz
  | cons sg rest ih =>
    rintro a m ⟨hs, hdur, hrest⟩ hp hmz
    cases hp0 : p sg with
    | true =>
      rw [List.filter_cons_of_pos hp0]
      refine ⟨hp sg (List.mem_cons_self _ _) hp0, hdur, ?_⟩
      refine ih hrest ?_ ?_
      · intro sg2 hm _
        have := chainFrom_start_ge hrest sg2 hm
        rw [hs]
        linarith
      · have := chainFrom_le hrest
        rw [hs]
        linarith
    | false =>
      rw [List.filter_cons_of_neg (by simp [hp0])]
      refine ih hrest ?_ hmz
      intro sg2 hm hp2
      exact hp sg2 (List.mem_cons_of_mem _ hm) hp2

theorem sumOv_nonneg (o c d : ℚ) (l : List Seg) : 0 ≤ (l.map (segOv o c d)).sum := by
  induction l with
  | nil => simp
  | cons sg rest ih =>
    simp only [List.map_cons, List.sum_cons]
    have h0 : 0 ≤ segOv o c d sg := ov_nonneg _ _ _ _
    linarith

theorem sumOv_le_hull {hi o c d : ℚ} :
    ∀ {l : List Seg} {lo : ℚ}, ordIn lo l hi →
      (l.map (segOv o c d)).sum ≤ ov (o + lo) (o + hi) c d := by
  intro l
  induction l with
  | nil =>
    intro lo _
    simp only [List.map_nil, List.sum_nil]
    exact ov_nonneg _ _ _ _
  | cons sg rest ih =>
    rintro lo ⟨h1, h2, h3⟩
    simp only [List.map_cons, List.sum_cons]
    have hIH := ih h3
    have hsup : ov (o + sg.startHour) (o + (sg.startHour + sg.duration)) c d +
        ov (o + (sg.startHour + sg.duration)) (o + hi) c d ≤ ov (o + lo) (o + hi) c d := by
      refine ov_superadd (by linarith) (by linarith) ?_
      have := ordIn_le h3
      linarith
    have hh : segOv o c d sg =
        ov (o + sg.startHour) (o + (sg.startHour + sg.duration)) c d := rfl
    linarith

theorem sumOv_le_dursum {hi o c d : ℚ} :
    ∀ {l : List Seg} {lo : ℚ}, ordIn lo l hi →
      (l.map (segOv o c d)).sum ≤ (l.map Seg.duration).sum := by
  intro l
  induction l with
  | nil => intro lo _; simp
  | cons sg rest ih =>
    rintro lo ⟨h1, h2, h3⟩
    simp only [List.map_cons, List.sum_cons]
    have hIH := ih h3
    have hle : segOv o c d sg ≤ sg.duration := by
      have h4 := ov_le_dur (a := o + sg.startHour) (b := o + (sg.startHour + sg.duration)) c d
        (by linarith)
      have hh : segOv o c d sg =
          ov (o + sg.startHour) (o + (sg.startHour + sg.duration)) c d := rfl
      linarith
    linarith

theorem windowCombine_duty {e u w c d D T : ℚ} (hu : u ≤ e) (huw : e ≤ w)
    (hD1 : D ≤ ov e w c d) (_hD0 : 0 ≤ D)
    (hT : T ≤ max 0 (d - max w c)) (_hT0 : 0 ≤ T) :
    D + T ≤ max 0 (d - max u c) := by
  unfold ov at hD1
  simp only [max_def, min_def] at *
  split_ifs at * <;> linarith

theorem windowCombine_drv {u c d D T : ℚ} (hd : d = c + 14)
    (hD1 : D ≤ ov u (u + 14) c d) (hD2 : D ≤ 11) (hD0 : 0 ≤ D)
    (hT : T ≤ min 11 (max 0 (d - max (u + 24) c))) (_hT0 : 0 ≤ T) :
    D + T ≤ min 11 (max 0 (d - max u c)) := by
  unfold ov at hD1
  simp only [max_def, min_def] at *
  split_ifs at * <;> linarith

theorem dayStart_le_eight (day : ℕ) : dayStart day ≤ 8 := by
  unfold dayStart
  split_ifs <;> norm_num

theorem duty_tail_bound (c d : ℚ) :
    ∀ (logs : List DailyLog) (k0 : ℕ), 1 ≤ k0 →
      (∀ L ∈ logs, GoodLog L) →
      logs.map DailyLog.dayNumber = List.range' k0 logs.length →
      (logs.map (fun L =>
        ((L.segments.filter (fun sg => sg.status == "driving" || sg.status == "on-duty")).map
          (segOv (24 * ((L.dayNumber : ℚ) - 1)) c d)).sum)).sum ≤
        max 0 (d - max (24 * ((k0 : ℚ) - 1)) c) := by
  intro logs
  induction logs with
  | nil =>
    intro k0 _ _ _
    simp only [List.map_nil, List.sum_nil]
    exact le_max_left 0 _
  | cons L rest ih =>
    intro k0 hk0 hgood hnum
    simp only [List.map_cons, List.sum_cons, List.length_cons, List.range'_succ,
      List.cons.injEq] at hnum
    obtain ⟨hL, hrest⟩ := hnum
    have hIH := ih (k0 + 1) (by omega)
      (fun L2 h => hgood L2 (List.mem_cons_of_mem _ h)) hrest
    obtain ⟨-, hchain, -, -, -, -⟩ := hgood L (List.mem_cons_self _ _)
    have hord : ordIn (dayStart L.dayNumber)
        (L.segments.filter (fun sg => sg.status == "driving" || sg.status == "on-duty")) 24 :=
      filtered_ordIn _ hchain
        (fun sg h _ => chainFrom_start_ge hchain sg h)
        (le_trans (dayStart_le_eight _) (by norm_num))
    have hD1 := sumOv_le_hull (o := 24 * ((L.dayNumber : ℚ) - 1)) (c := c) (d := d) hord
    have hD0 := sumOv_nonneg (24 * ((L.dayNumber : ℚ) - 1)) c d
      (L.segments.filter (fun sg => sg.status == "driving" || sg.status == "on-duty"))
    have hT0 : 0 ≤ (rest.map (fun L2 =>
        ((L2.segments.filter (fun sg => sg.status == "driving" || sg.status == "on-duty")).map
          (segOv (24 * ((L2.dayNumber : ℚ) - 1)) c d)).sum)).sum := by
      apply List.sum_nonneg
      intro x hx
      obtain ⟨L2, -, rfl⟩ := List.mem_map.mp hx
      exact sumOv_nonneg _ _ _ _
    simp only [List.map_cons, List.sum_cons]
    rw [hL] at hD1 hD0 ⊢
    have heq : 24 * (((k0 + 1 : ℕ) : ℚ) - 1) = 24 * ((k0 : ℚ) - 1) + 24 := by
      push_cast
      ring
    rw [heq] at hIH
    refine windowCombine_duty
      (u := 24 * ((k0 : ℚ) - 1)) (e := 24 * ((k0 : ℚ) - 1) + dayStart k0)
      (w := 24 * ((k0 : ℚ) - 1) + 24)
      (by have := dayStart_nonneg k0; linarith)
      (by have := dayStart_le_eight k0; linarith) hD1 hD0 hIH hT0

theorem drv_tail_bound (c d : ℚ) (hd : d = c + 14) :
    ∀ (logs : List DailyLog) (k0 : ℕ), 1 ≤ k0 →
      (∀ L ∈ logs, GoodLog L) →
      logs.map DailyLog.dayNumber = List.range' k0 logs.length →
      (logs.map (fun L =>
        ((L.segments.filter (fun sg => sg.status == "driving")).map
          (segOv (24 * ((L.dayNumber : ℚ) - 1)) c d)).sum)).sum ≤
        min 11 (max 0 (d - max (24 * ((k0 : ℚ) - 1) + 10) c)) := by
  intro logs
  induction logs with
  | nil =>
    intro k0 _ _ _
    simp only [List.map_nil, List.sum_nil]
    exact le_min (by norm_num) (le_max_left 0 _)
  | cons L rest ih =>
    intro k0 hk0 hgood hnum
    simp only [List.map_cons, List.sum_cons, List.length_cons, List.range'_succ,
      List.cons.injEq] at hnum
    obtain ⟨hL, hrest⟩ := hnum
    have hIH := ih (k0 + 1) (by omega)
      (fun L2 h => hgood L2 (List.mem_cons_of_mem _ h)) hrest
    obtain ⟨-, hchain, hdrv, hd11, hstart, -⟩ := hgood L (List.mem_cons_self _ _)
    have hord : ordIn 10 (L.segments.filter (fun sg => sg.status == "driving")) 24 :=
      filtered_ordIn _ hchain
        (fun sg h hp => hstart sg h (by simpa using hp))
        (by norm_num)
    have hD1 := sumOv_le_hull (o := 24 * ((L.dayNumber : ℚ) - 1)) (c := c) (d := d) hord
    have hD0 := sumOv_nonneg (24 * ((L.dayNumber : ℚ) - 1)) c d
      (L.segments.filter (fun sg => sg.status == "driving"))
    have hD2 : ((L.segments.filter (fun sg => sg.status == "driving")).map
        (segOv (24 * ((L.dayNumber : ℚ) - 1)) c d)).sum ≤ 11 := by
      refine le_trans (sumOv_le_dursum hord) ?_
      have : ((L.segments.filter (fun sg => sg.status == "driving")).map Seg.duration).sum =
          drvSum L.segments := rfl
      rw [this, hdrv]
      exact hd11
    have hT0 : 0 ≤ (rest.map (fun L2 =>
        ((L2.segments.filter (fun sg => sg.status == "driving")).map
          (segOv (24 * ((L2.dayNumber : ℚ) - 1)) c d)).sum)).sum := by
      apply List.sum_nonneg
      intro x hx
      obtain ⟨L2, -, rfl⟩ := List.mem_map.mp hx
      exact sumOv_nonneg _ _ _ _
    simp only [List.map_cons, List.sum_cons]
    rw [hL] at hD1 hD2 hD0 ⊢
    have heq : 24 * (((k0 + 1 : ℕ) : ℚ) - 1) + 10 = (24 * ((k0 : ℚ) - 1) + 10) + 24 := by
      push_cast
      ring
    rw [heq] at hIH
    have hzone : 24 * ((k0 : ℚ) - 1) + 24 = (24 * ((k0 : ℚ) - 1) + 10) + 14 := by ring
    rw [hzone] at hD1
    exact windowCombine_drv hd hD1 hD2 hD0 hIH hT0

set_option maxHeartbeats 1000000 in
/-- C1: reconstructing the full cross-day timeline of the generator output,
the driving time inside any rolling 14-hour window never exceeds 11 hours,
and the on-duty (driving + on-duty) time inside any such window never
exceeds 14 hours. -/
theorem rolling_window_caps (tr : TripData) (route : RouteData) (b : ℤ) (t : ℚ) :
    drivingInWindow (generate_eld_logs tr route b) t ≤ 11 ∧
    dutyInWindow (generate_eld_logs tr route b) t ≤ 14 := by
  obtain ⟨hgood, hnum, -⟩ := generate_good tr route b
  constructor
  · refine le_trans (drv_tail_bound t (t + 14) rfl (generate_eld_logs tr route b) 1
      (le_refl 1) hgood hnum) ?_
    exact min_le_left _ _
  · refine le_trans (duty_tail_bound t (t + 14) (generate_eld_logs tr route b) 1
      (le_refl 1) hgood hnum) ?_
    have h1 : t ≤ max (24 * (((1 : ℕ) : ℚ) - 1)) t := le_max_right _ _
    apply max_le (by norm_num)
    linarith

end Spotter
